import Mathlib

/-!
Verification development for the rule matching and batched execution engine of
the `ai-extension-manager` browser extension.  The definitions below are a
shallow embedding of the TypeScript/JavaScript source: the rule data model and
`RuleIndexer` (rule/RuleIndexer.ts), the round driver `processRule` / `process`
/ `handle` / `handleSimpleMode` / `handleAdvanceMode` (rule/processor.ts), the
mutual-exclusion handler (extension/MutexGroupHandler.ts) and the always-on
handler (extension/AlwaysOnGroupHandler.ts).  Components whose source is not in
the repository snapshot (ExecuteTaskHandler, matchHandler, targetHandler) are
modelled from the specification and marked as such in their doc comments.
-/

namespace AEM

/-! ## Data model (from src/types/config.d.ts and the ruleV2 usage sites) -/

/-- A browser tab; only the URL is relevant to the engine. -/
structure Tab where
  url : Option String
deriving DecidableEq, Repr

/-- `config.IScene`. -/
structure IScene where
  id : String
  name : String
deriving DecidableEq, Repr

/-- `config.IGroup` (extension group with optional always-on / mutex flags). -/
structure IGroup where
  id : String
  name : String
  desc : String
  extensions : List String
  alwaysOn : Option Bool
  isMutex : Option Bool
deriving DecidableEq, Repr

/-- `ruleV2.IUrlTriggerConfig` (wildcard URL patterns in `matchUrl`). -/
structure IUrlTriggerConfig where
  matchUrl : List String
deriving DecidableEq, Repr

/-- `ruleV2.ISceneTriggerConfig`: a single `sceneId` and/or a `sceneIds` list. -/
structure ISceneTriggerConfig where
  sceneId : Option String
  sceneIds : Option (List String)
deriving DecidableEq, Repr

/-- `ruleV2.IOsTriggerConfig`. -/
structure IOsTriggerConfig where
  os : List String
deriving DecidableEq, Repr

/-- One time window of a period trigger, in minutes of the day. -/
structure PeriodWindow where
  startMinute : Nat
  endMinute : Nat
deriving DecidableEq, Repr

/-- `ruleV2.IPeriodTriggerConfig`. -/
structure IPeriodTriggerConfig where
  periods : List PeriodWindow
deriving DecidableEq, Repr

/-- A trigger: the tagged union `{trigger: string, config?: ...}`.  The
`config` is optional, mirroring the TS shape where it may be absent. -/
inductive ITrigger where
  | urlTrigger (config : Option IUrlTriggerConfig)
  | sceneTrigger (config : Option ISceneTriggerConfig)
  | osTrigger (config : Option IOsTriggerConfig)
  | periodTrigger (config : Option IPeriodTriggerConfig)
deriving DecidableEq, Repr

/-- The `relationship` of a rule's match: `"and"` or `"or"`. -/
inductive MatchRelation where
  | relAnd
  | relOr
deriving DecidableEq, Repr

/-- `ruleV2.IMatch`: trigger list plus the and/or relationship. -/
structure IMatch where
  relationship : MatchRelation
  triggers : Option (List ITrigger)
deriving DecidableEq, Repr

/-- `ruleV2.ITarget`: group ids and explicit extension ids. -/
structure ITarget where
  groups : Option (List String)
  extensions : Option (List String)
deriving DecidableEq, Repr

/-- The simple-mode action type strings, plus `custom` and `none`. -/
inductive ActionType where
  | openWhenMatched
  | closeWhenMatched
  | openOnlyWhenMatched
  | closeOnlyWhenMatched
  | custom
  | none
deriving DecidableEq, Repr

/-- Custom-mode timing condition (`"match"` / `"notMatch"` / `"closeWindow"`). -/
inductive TimeWhen where
  | onMatch
  | onNotMatch
  | onCloseWindow
deriving DecidableEq, Repr

/-- Custom-mode scope condition. -/
inductive UrlMatchWhen where
  | currentMatch
  | anyMatch
  | currentNotMatch
  | allNotMatch
deriving DecidableEq, Repr

/-- The custom (advanced) action configuration: two independent gates. -/
structure ICustomAction where
  timeWhenEnable : TimeWhen
  urlMatchWhenEnable : UrlMatchWhen
  timeWhenDisable : TimeWhen
  urlMatchWhenDisable : UrlMatchWhen
deriving DecidableEq, Repr

/-- `ruleV2.IAction`.  The optional reload booleans of the TS type are
modelled as plain booleans (`undefined` behaves as `false` at every use). -/
structure IAction where
  actionType : ActionType
  reloadAfterEnable : Bool
  reloadAfterDisable : Bool
  custom : Option ICustomAction
deriving DecidableEq, Repr

/-- `ruleV2.IRuleConfig`.  The TS field `match` is a reserved word in Lean and
is rendered `match_`. -/
structure IRuleConfig where
  id : Option String
  enable : Bool
  priority : Option Int
  match_ : Option IMatch
  target : Option ITarget
  action : Option IAction
deriving DecidableEq, Repr

/-- `IMatchResult` from matchHandler. -/
structure IMatchResult where
  isCurrentMatch : Bool
  isAnyMatch : Bool
deriving DecidableEq, Repr

/-! ## String helpers

Character-level renderings of the JavaScript string operations used by the
indexer (`split`, `join`, `replace` with the specific regexes of the source).
-/

/-- JS `s.split(sep)` for a single-character separator: always returns at
least one (possibly empty) part. -/
def splitOnChar (sep : Char) (l : List Char) : List (List Char) :=
  l.foldr
    (fun c acc =>
      if c = sep then [] :: acc
      else
        match acc with
        | [] => [[c]]
        | g :: gs => (c :: g) :: gs)
    [[]]

/-- JS `parts.join(".")`. -/
def joinDot (parts : List (List Char)) : List Char :=
  List.intercalate ['.'] parts

/-- Drop leading characters equal to `c` (regex `^c+` replacement by `""`). -/
def dropLeading (c : Char) (l : List Char) : List Char :=
  l.dropWhile (· = c)

/-- Drop trailing characters equal to `c` (regex `c+$` replacement by `""`). -/
def dropTrailing (c : Char) (l : List Char) : List Char :=
  (l.reverse.dropWhile (· = c)).reverse

/-- Whether `pre` is a leading run of `l`. -/
def hasLeadingRun (pre l : List Char) : Bool :=
  List.isPrefixOf pre l

/-- JS `str.replace(/^https?:\/\//, "")`. -/
def dropHttpScheme (l : List Char) : List Char :=
  if hasLeadingRun "https://".data l then l.drop 8
  else if hasLeadingRun "http://".data l then l.drop 7
  else l

/-- JS `str.replace(/^\/.*\/$/, "")`: the regex matches the whole string when
it starts and ends with `/` and has length at least two, in which case the
whole string is replaced by the empty string. -/
def dropRegexDelims (l : List Char) : List Char :=
  match l with
  | [] => []
  | c :: rest =>
    if c = '/' ∧ rest ≠ [] ∧ rest.getLast? = some '/' then []
    else c :: rest

/-- JS `str.replace(/\/.*$/, "")`: remove everything from the first `/` on. -/
def dropFromSlash (l : List Char) : List Char :=
  l.takeWhile (· ≠ '/')

/-! ## Rule Index (`RuleIndexer`, translated from the source) -/

/-- Association-list rendering of a JS `Map<string, Set<string>>`: keys in
insertion order, each carrying its id set in insertion order. -/
abbrev IndexMap := List (String × List String)

/-- `map.get(key)` on an `IndexMap`. -/
def indexLookup (m : IndexMap) (key : String) : Option (List String) :=
  (m.find? (fun e => e.1 = key)).map (fun e => e.2)

/-- Add `id` to the set stored under `key`, creating the set when absent
(mirrors the `if (!index.has(k)) index.set(k, new Set()); index.get(k).add(id)`
pattern of the source). -/
def indexAdd (m : IndexMap) (key : String) (id : String) : IndexMap :=
  match m with
  | [] => [(key, [id])]
  | e :: rest =>
    if e.1 = key then
      (if id ∈ e.2 then e else (e.1, e.2 ++ [id])) :: rest
    else e :: indexAdd rest key id

/-- `Map<string, IRuleConfig>` as an association list; `set` replaces in
place, preserving first-insertion order like a JS `Map`. -/
def rulesMapSet (m : List (String × IRuleConfig)) (key : String)
    (r : IRuleConfig) : List (String × IRuleConfig) :=
  match m with
  | [] => [(key, r)]
  | e :: rest => if e.1 = key then (key, r) :: rest else e :: rulesMapSet rest key r

/-- The `RuleIndexer` state: domain, scene and OS indices plus the id → rule
map. -/
structure RuleIndexer where
  domainIndex : IndexMap
  sceneIndex : IndexMap
  osIndex : IndexMap
  allRules : List (String × IRuleConfig)
deriving DecidableEq, Repr

/-- `extractDomainFromPattern` from the source: strip leading/trailing `*`,
regex delimiters, an `http(s)://` scheme and the path, then keep the last two
dot-separated labels (or the whole remainder when there are fewer), returning
`none` for an empty result (`domain || null`). -/
def extractDomainFromPattern (pattern : String) : Option String :=
  let domain :=
    dropFromSlash (dropHttpScheme (dropRegexDelims
      (dropTrailing '*' (dropLeading '*' pattern.data))))
  let parts := splitOnChar '.' domain
  if parts.length ≥ 2 then
    some (String.mk (joinDot (parts.drop (parts.length - 2))))
  else if domain = [] then none
  else some (String.mk domain)

/-- `extractDomain` from the source: last two labels of a hostname. -/
def extractDomain (hostname : String) : String :=
  let parts := splitOnChar '.' hostname.data
  if parts.length ≥ 2 then String.mk (joinDot (parts.drop (parts.length - 2)))
  else hostname

/-- The scene ids recorded for one scene trigger config: the single `sceneId`
(when present) followed by the `sceneIds` list (when present). -/
def sceneIdsOf (cfg : ISceneTriggerConfig) : List String :=
  (match cfg.sceneId with
   | some sid => [sid]
   | Option.none => []) ++ cfg.sceneIds.getD []

/-- Index one trigger of one rule (the body of the trigger loop in
`rebuildIndex`). -/
def indexTrigger (ruleId : String) (idx : RuleIndexer) : ITrigger → RuleIndexer
  | ITrigger.urlTrigger cfg? =>
    match cfg? with
    | Option.none => idx
    | some cfg =>
      { idx with
        domainIndex :=
          cfg.matchUrl.foldl
            (fun m pattern =>
              match extractDomainFromPattern pattern with
              | some domain => indexAdd m domain ruleId
              | Option.none => m)
            idx.domainIndex }
  | ITrigger.sceneTrigger cfg? =>
    match cfg? with
    | Option.none => idx
    | some cfg =>
      { idx with
        sceneIndex :=
          (sceneIdsOf cfg).foldl (fun m sid => indexAdd m sid ruleId) idx.sceneIndex }
  | ITrigger.osTrigger cfg? =>
    match cfg? with
    | Option.none => idx
    | some cfg =>
      { idx with
        osIndex := cfg.os.foldl (fun m o => indexAdd m o ruleId) idx.osIndex }
  | ITrigger.periodTrigger _ => idx

/-- Index one rule (the body of the rule loop in `rebuildIndex`): disabled or
id-less rules are skipped, otherwise the rule is recorded in `allRules` and
every trigger is indexed. -/
def indexRule (idx : RuleIndexer) (rule : IRuleConfig) : RuleIndexer :=
  match rule.id with
  | Option.none => idx
  | some rid =>
    if rule.enable then
      let idx := { idx with allRules := rulesMapSet idx.allRules rid rule }
      match rule.match_ with
      | Option.none => idx
      | some m => (m.triggers.getD []).foldl (indexTrigger rid) idx
    else idx

/-- `rebuildIndex`: clear everything, then index every enabled rule. -/
def rebuildIndex (rules : List IRuleConfig) : RuleIndexer :=
  rules.foldl indexRule ⟨[], [], [], []⟩

/-- Split a character list at the first `"://"`, returning the scheme part
and the remainder. -/
def findSchemeSep : List Char → Option (List Char × List Char)
  | [] => Option.none
  | ':' :: '/' :: '/' :: rest => some ([], rest)
  | c :: rest =>
    match findSchemeSep rest with
    | some (pre, post) => some (c :: pre, post)
    | Option.none => Option.none

/-- Hostname extraction of the platform's `new URL(url)` constructor, which
the source calls inside a try/catch: a URL parses when it has a nonempty
scheme before `"://"` and a nonempty host; the host runs up to the first `/`,
`?`, `#` or `:` .  A string without that shape throws, which the source turns
into an empty candidate list. -/
def parseHostname (url : String) : Option String :=
  match findSchemeSep url.data with
  | Option.none => Option.none
  | some (scheme, rest) =>
    let host := rest.takeWhile (fun c => c ≠ '/' ∧ c ≠ '?' ∧ c ≠ '#' ∧ c ≠ ':')
    if scheme = [] ∨ host = [] then Option.none else some (String.mk host)

/-- `getRulesForUrl` from the source: parse the URL, collect the ids indexed
under its two-label domain and under its full hostname (a `Set`, so
duplicates collapse), returning `[]` when the URL does not parse. -/
def getRulesForUrl (idx : RuleIndexer) (url : String) : List String :=
  match parseHostname url with
  | Option.none => []
  | some hostname =>
    let domain := extractDomain hostname
    let fromDomain := (indexLookup idx.domainIndex domain).getD []
    let fromHost := (indexLookup idx.domainIndex hostname).getD []
    fromDomain ++ fromHost.filter (fun id => id ∉ fromDomain)

/-- `getRulesForScene` from the source. -/
def getRulesForScene (idx : RuleIndexer) (sceneId : String) : List String :=
  (indexLookup idx.sceneIndex sceneId).getD []

/-- `getRulesForOS` from the source. -/
def getRulesForOS (idx : RuleIndexer) (osType : String) : List String :=
  (indexLookup idx.osIndex osType).getD []

/-- `getRule` from the source. -/
def getRule (idx : RuleIndexer) (ruleId : String) : Option IRuleConfig :=
  ((idx.allRules.find? (fun e => e.1 = ruleId)).map (fun e => e.2))

/-! ## Task accumulator (`ExecuteTaskHandler`) -/

/-- Modelled from the spec: `ExecuteTaskHandler.ts` is not part of the source
snapshot (only its call sites are).  Priority per §3: `{ level : int,
isFallback : bool }`, defaulting to level 0 and a non-fallback request. -/
structure ExecuteTaskPriority where
  level : Int := 0
  isFallback : Bool := false
deriving DecidableEq, Repr

/-- `priority.setPriority(p)` as used by `handleSimpleMode`. -/
def ExecuteTaskPriority.setPriority (p : ExecuteTaskPriority) (lv : Int) :
    ExecuteTaskPriority :=
  { p with level := lv }

/-- `priority.setNotMatch()` marks the request as a fallback branch. -/
def ExecuteTaskPriority.setNotMatch (p : ExecuteTaskPriority) : ExecuteTaskPriority :=
  { p with isFallback := true }

/-- Whether a task asks to open (enable) or close (disable) its targets. -/
inductive TaskKind where
  | openK
  | closeK
deriving DecidableEq, Repr

/-- Modelled from the spec: one accumulated open/close request (§3
`ExecuteTask`).  The `tabInfo`/`ctx` fields of the call sites only feed the
optional reload of the affected document and are not represented. -/
structure ExecuteTask where
  kind : TaskKind
  targetExtensions : List String
  reload : Bool
  priority : ExecuteTaskPriority
deriving DecidableEq, Repr

/-- Modelled from the spec: the Task Accumulator state is the list of
requests appended during the round, in append order (§4.5). -/
structure ExecuteTaskHandler where
  tasks : List ExecuteTask
deriving DecidableEq, Repr

/-- `executeTaskHandler.open(...)` appends an open request. -/
def ExecuteTaskHandler.openTask (h : ExecuteTaskHandler) (targetExtensions : List String)
    (reload : Bool) (priority : ExecuteTaskPriority) : ExecuteTaskHandler :=
  ⟨h.tasks ++ [⟨TaskKind.openK, targetExtensions, reload, priority⟩]⟩

/-- `executeTaskHandler.close(...)` appends a close request. -/
def ExecuteTaskHandler.closeTask (h : ExecuteTaskHandler) (targetExtensions : List String)
    (reload : Bool) (priority : ExecuteTaskPriority) : ExecuteTaskHandler :=
  ⟨h.tasks ++ [⟨TaskKind.closeK, targetExtensions, reload, priority⟩]⟩

/-- The `(level, !isFallback)` conflict key of §4.5, with the boolean mapped
to `{0, 1}` (a fallback request ranks below a matched one). -/
def keyOf (t : ExecuteTask) : Int × Nat :=
  (t.priority.level, if t.priority.isFallback then 0 else 1)

/-- Lexicographic order on conflict keys. -/
def keyLe (a b : Int × Nat) : Prop :=
  a.1 < b.1 ∨ (a.1 = b.1 ∧ a.2 ≤ b.2)

instance (a b : Int × Nat) : Decidable (keyLe a b) := by
  unfold keyLe; infer_instance

/-- Modelled from the spec: conflict resolution of §4.5 rendered over the
append-ordered task list — scan the round's tasks mentioning `id`, keeping
the later task whenever its key is at least the best key so far (so the
highest key wins, and the last-appended task prevails on ties). -/
def pickWinner (tasks : List ExecuteTask) (id : String) : Option ExecuteTask :=
  tasks.foldl
    (fun acc t =>
      if id ∈ t.targetExtensions then
        match acc with
        | Option.none => some t
        | some best => if keyLe (keyOf best) (keyOf t) then some t else some best
      else acc)
    Option.none

/-- `Set`-style deduplication keeping first occurrences (JS `Set` insertion
order). -/
def dedupKeepFirst (l : List String) : List String :=
  l.foldl (fun acc x => if x ∈ acc then acc else acc ++ [x]) []

/-- An enable/disable call to the extension-management boundary
(`chrome.management.setEnabled`). -/
inductive StateCall where
  | setEnabled (id : String) (enabled : Bool)
deriving DecidableEq, Repr

/-- `chromeP.management.get(id).enabled`, over the installed-extension table;
`none` models a missing extension (the host call throws). -/
def getInfo (installed : List (String × Bool)) (id : String) : Option Bool :=
  (installed.find? (fun e => e.1 = id)).map (fun e => e.2)

/-- Modelled from the spec: `execute()` of §4.5 — per distinct targeted
extension id, resolve the winning task and issue one state-change call when
the id needs to change (an open of a disabled extension, a close of an
enabled one); ids already in the desired state or unknown get no call. -/
def executeCalls (tasks : List ExecuteTask) (installed : List (String × Bool)) :
    List StateCall :=
  let ids := dedupKeepFirst (tasks.foldl (fun acc t => acc ++ t.targetExtensions) [])
  ids.filterMap
    (fun id =>
      match pickWinner tasks id with
      | Option.none => Option.none
      | some t =>
        match t.kind, getInfo installed id with
        | TaskKind.openK, some false => some (StateCall.setEnabled id true)
        | TaskKind.closeK, some true => some (StateCall.setEnabled id false)
        | _, _ => Option.none)

/-- `executeTaskHandler.execute()` against the current installed table. -/
def ExecuteTaskHandler.execute (h : ExecuteTaskHandler)
    (installed : List (String × Bool)) : List StateCall :=
  executeCalls h.tasks installed

/-! ## Evaluation context -/

/-- `ProcessContext` of the processor: the controller's own id, the active
tab, all open tabs, the host OS kind (absent when `getPlatformInfo` is
unavailable), the wall-clock minute of day, and the optional
`EM.Rule.handler.indexer`. -/
structure ProcessContext where
  selfId : String
  tab : Option Tab
  tabs : List Tab
  osKind : Option String
  nowMinutes : Nat
  indexer : Option RuleIndexer
deriving DecidableEq, Repr

/-- `RunningProcessContext`: the per-rule copy of the context carrying the
rule being processed and its match result (the accumulator itself is threaded
explicitly through the functions below). -/
structure RunningProcessContext extends ProcessContext where
  rule : Option IRuleConfig
  matchResult : Option IMatchResult
deriving DecidableEq, Repr

/-! ## Match evaluator -/

/-- Modelled from the spec: wildcard pattern matching for URL trigger
patterns (`*` matches any character run); fuel-structured so every
application reduces by kernel computation. -/
def wildcardFuel : Nat → List Char → List Char → Bool
  | 0, _, _ => false
  | Nat.succ f, p, s =>
    match p, s with
    | [], [] => true
    | [], _ :: _ => false
    | '*' :: ps, [] => wildcardFuel f ps []
    | '*' :: ps, c :: cs => wildcardFuel f ps (c :: cs) || wildcardFuel f ('*' :: ps) cs
    | _ :: _, [] => false
    | pc :: ps, c :: cs => pc = c && wildcardFuel f ps cs

/-- Wildcard match of a pattern against a URL string. -/
def wildcardMatch (pattern url : String) : Bool :=
  wildcardFuel (pattern.data.length + url.data.length + 1) pattern.data url.data

/-- Whether a (possibly absent) tab URL satisfies any configured pattern. -/
def urlSatisfies (patterns : List String) (u : Option String) : Bool :=
  match u with
  | some url => patterns.any (fun p => wildcardMatch p url)
  | Option.none => false

/-- Modelled from the spec: per-trigger evaluation of §4.2, returning the
(current, any) pair — URL triggers test the active tab for `current` and all
open tabs for `any`; scene, OS and period triggers have no per-document
notion, so both components coincide; a trigger with an empty or missing
pattern/id list never matches. -/
def triggerCurrentAny (scene : Option IScene) (ctx : ProcessContext) :
    ITrigger → Bool × Bool
  | ITrigger.urlTrigger cfg? =>
    match cfg? with
    | Option.none => (false, false)
    | some cfg =>
      let cur := match ctx.tab with
        | some t => urlSatisfies cfg.matchUrl t.url
        | Option.none => false
      let anyB := ctx.tabs.any (fun t => urlSatisfies cfg.matchUrl t.url)
      (cur, anyB)
  | ITrigger.sceneTrigger cfg? =>
    match cfg? with
    | Option.none => (false, false)
    | some cfg =>
      let b := match scene with
        | some s => (sceneIdsOf cfg).contains s.id
        | Option.none => false
      (b, b)
  | ITrigger.osTrigger cfg? =>
    match cfg? with
    | Option.none => (false, false)
    | some cfg =>
      let b := match ctx.osKind with
        | some k => cfg.os.contains k
        | Option.none => false
      (b, b)
  | ITrigger.periodTrigger cfg? =>
    match cfg? with
    | Option.none => (false, false)
    | some cfg =>
      let b := cfg.periods.any
        (fun w => decide (w.startMinute ≤ ctx.nowMinutes ∧ ctx.nowMinutes ≤ w.endMinute))
      (b, b)

/-- Modelled from the spec: matchHandler's `isMatch` is not in the source
snapshot.  Per §4.2 every trigger is evaluated against the context and the
results are combined under the rule's and/or relationship, separately for
the current and any semantics; a rule with no triggers is vacuously matched
in both senses. -/
def isMatch (scene : Option IScene) (rule : IRuleConfig) (ctx : ProcessContext) :
    IMatchResult :=
  match rule.match_ with
  | Option.none => ⟨true, true⟩
  | some m =>
    match m.triggers with
    | Option.none => ⟨true, true⟩
    | some [] => ⟨true, true⟩
    | some ts =>
      let results := ts.map (triggerCurrentAny scene ctx)
      match m.relationship with
      | MatchRelation.relAnd => ⟨results.all (fun r => r.1), results.all (fun r => r.2)⟩
      | MatchRelation.relOr => ⟨results.any (fun r => r.1), results.any (fun r => r.2)⟩

/-! ## Target resolver -/

/-- Modelled from the spec: targetHandler's `getTarget(groups, rule)` is not
in the source snapshot.  Per §4.3 the explicit `target.extensions` are
unioned with the members of every group referenced by `target.groups` (a
group id that resolves to no group contributes nothing, §7), yielding `none`
when the rule has no target.  The signature takes no context, so the
controller's id is excluded by the caller (`process`), not here. -/
def getTarget (groups : Option (List IGroup)) (rule : IRuleConfig) :
    Option (List String) :=
  match rule.target with
  | Option.none => Option.none
  | some tgt =>
    let gs := groups.getD []
    let fromGroups :=
      (tgt.groups.getD []).foldl
        (fun acc gid =>
          match gs.find? (fun g => g.id = gid) with
          | some g => acc ++ g.extensions
          | Option.none => acc)
        []
    some (dedupKeepFirst (tgt.extensions.getD [] ++ fromGroups))

/-! ## Action resolver (`handleSimpleMode` / `handleAdvanceMode` / `handle`,
translated from the source `processor.ts`) -/

/-- The task priority built at the top of `handleSimpleMode`: a fresh
priority, set to the rule's priority when it is defined. -/
def rulePriority (rule? : Option IRuleConfig) : ExecuteTaskPriority :=
  match rule?.bind (fun r => r.priority) with
  | some p => ExecuteTaskPriority.setPriority {} p
  | Option.none => {}

/-- `handleSimpleMode` from the source: `openWhenMatched`/`closeWhenMatched`
append only under a current match; the `...OnlyWhenMatched` variants append
the primary request when matched and the opposite-kind request with
`setNotMatch()` when not. -/
def handleSimpleMode (matchResult : IMatchResult) (targetExtensions : List String)
    (action : IAction) (ctx : RunningProcessContext) (h : ExecuteTaskHandler) :
    ExecuteTaskHandler :=
  let actionType := action.actionType
  let isMatchB := matchResult.isCurrentMatch
  let taskPriority := rulePriority ctx.rule
  let h :=
    if isMatchB ∧ actionType = ActionType.closeWhenMatched then
      h.closeTask targetExtensions action.reloadAfterDisable taskPriority
    else h
  let h :=
    if isMatchB ∧ actionType = ActionType.openWhenMatched then
      h.openTask targetExtensions action.reloadAfterEnable taskPriority
    else h
  let h :=
    if actionType = ActionType.closeOnlyWhenMatched then
      if isMatchB then
        h.closeTask targetExtensions action.reloadAfterDisable taskPriority
      else
        h.openTask targetExtensions action.reloadAfterEnable
          (ExecuteTaskPriority.setNotMatch (rulePriority ctx.rule))
    else h
  let h :=
    if actionType = ActionType.openOnlyWhenMatched then
      if isMatchB then
        h.openTask targetExtensions action.reloadAfterEnable taskPriority
      else
        h.closeTask targetExtensions action.reloadAfterDisable
          (ExecuteTaskPriority.setNotMatch (rulePriority ctx.rule))
    else h
  h

/-- `handleAdvanceMode` from the source: two independent gates, each a chain
of guarded appends; the `notMatch` branches use `setNotMatch()` priorities,
and the `anyMatch` branches reload only under a current match. -/
def handleAdvanceMode (matchResult : IMatchResult) (targetExtensions : List String)
    (action : IAction) (_ctx : RunningProcessContext) (h : ExecuteTaskHandler) :
    ExecuteTaskHandler :=
  match action.custom with
  | Option.none => h
  | some customRule =>
    let h :=
      if customRule.timeWhenEnable = TimeWhen.onMatch ∧
          customRule.urlMatchWhenEnable = UrlMatchWhen.currentMatch ∧
          matchResult.isCurrentMatch then
        h.openTask targetExtensions action.reloadAfterEnable {}
      else h
    let h :=
      if customRule.timeWhenEnable = TimeWhen.onMatch ∧
          customRule.urlMatchWhenEnable = UrlMatchWhen.anyMatch ∧
          matchResult.isAnyMatch then
        h.openTask targetExtensions (matchResult.isCurrentMatch && action.reloadAfterEnable) {}
      else h
    let h :=
      if customRule.timeWhenEnable = TimeWhen.onNotMatch ∧
          customRule.urlMatchWhenEnable = UrlMatchWhen.currentNotMatch ∧
          ¬matchResult.isCurrentMatch then
        h.openTask targetExtensions action.reloadAfterEnable
          (ExecuteTaskPriority.setNotMatch {})
      else h
    let h :=
      if customRule.timeWhenEnable = TimeWhen.onNotMatch ∧
          customRule.urlMatchWhenEnable = UrlMatchWhen.allNotMatch ∧
          ¬matchResult.isAnyMatch then
        h.openTask targetExtensions action.reloadAfterEnable
          (ExecuteTaskPriority.setNotMatch {})
      else h
    let h :=
      if customRule.timeWhenDisable = TimeWhen.onMatch ∧
          customRule.urlMatchWhenDisable = UrlMatchWhen.currentMatch ∧
          matchResult.isCurrentMatch then
        h.closeTask targetExtensions action.reloadAfterDisable {}
      else h
    let h :=
      if customRule.timeWhenDisable = TimeWhen.onMatch ∧
          customRule.urlMatchWhenDisable = UrlMatchWhen.anyMatch ∧
          matchResult.isAnyMatch then
        h.closeTask targetExtensions (matchResult.isCurrentMatch && action.reloadAfterDisable) {}
      else h
    let h :=
      if customRule.timeWhenDisable = TimeWhen.onNotMatch ∧
          customRule.urlMatchWhenDisable = UrlMatchWhen.currentNotMatch ∧
          ¬matchResult.isCurrentMatch then
        h.closeTask targetExtensions action.reloadAfterDisable
          (ExecuteTaskPriority.setNotMatch {})
      else h
    let h :=
      if customRule.timeWhenDisable = TimeWhen.onNotMatch ∧
          customRule.urlMatchWhenDisable = UrlMatchWhen.allNotMatch ∧
          ¬matchResult.isAnyMatch then
        h.closeTask targetExtensions action.reloadAfterDisable
          (ExecuteTaskPriority.setNotMatch {})
      else h
    h

/-- `handle` from the source: bail out without a match result or action, do
nothing for `none`, and dispatch to the custom or simple mode. -/
def handle (targetExtensions : List String) (config : IRuleConfig)
    (ctx : RunningProcessContext) (h : ExecuteTaskHandler) : ExecuteTaskHandler :=
  match ctx.matchResult with
  | Option.none => h
  | some matchResult =>
    match config.action with
    | Option.none => h
    | some action =>
      if action.actionType = ActionType.none then h
      else if action.actionType = ActionType.custom then
        handleAdvanceMode matchResult targetExtensions action ctx h
      else
        handleSimpleMode matchResult targetExtensions action ctx h

/-- `process` from the source: skip disabled rules, evaluate the match,
resolve the targets (bailing out when nothing resolves), filter out the
controller's own id, then hand over to `handle`. -/
def process (rule : IRuleConfig) (scene : Option IScene)
    (groups : Option (List IGroup)) (ctx : RunningProcessContext)
    (h : ExecuteTaskHandler) : ExecuteTaskHandler :=
  if ¬rule.enable then h
  else
    let ctx := { ctx with matchResult := some (isMatch scene rule ctx.toProcessContext) }
    match getTarget groups rule with
    | Option.none => h
    | some targetIdArray =>
      if targetIdArray = [] then h
      else
        let targetExtensionIds := targetIdArray.filter (fun id => id ≠ ctx.selfId)
        handle targetExtensionIds rule ctx h

/-! ## Round driver (`processRule`, translated from the source) -/

/-- Whether a rule carries a URL trigger (`r.match?.triggers?.some(...)`). -/
def hasUrlTrigger (r : IRuleConfig) : Bool :=
  ((r.match_.bind (fun m => m.triggers)).getD []).any
    (fun t => match t with | ITrigger.urlTrigger _ => true | _ => false)

/-- Whether a rule carries a scene trigger. -/
def hasSceneTrigger (r : IRuleConfig) : Bool :=
  ((r.match_.bind (fun m => m.triggers)).getD []).any
    (fun t => match t with | ITrigger.sceneTrigger _ => true | _ => false)

/-- Whether a rule carries an OS trigger. -/
def hasOsTrigger (r : IRuleConfig) : Bool :=
  ((r.match_.bind (fun m => m.triggers)).getD []).any
    (fun t => match t with | ITrigger.osTrigger _ => true | _ => false)

/-- The candidate-selection front half of `processRule` (source lines
74–125): beyond ten rules and with an indexer available, collect the ids
indexed for the current URL, scene and OS; when that set is nonempty and
strictly smaller than the rule set, process the resolved candidates plus
every rule with no URL/scene/OS trigger, otherwise fall back to all rules. -/
def rulesToProcess (rules : List IRuleConfig) (scene : Option IScene)
    (ctx : ProcessContext) : List IRuleConfig :=
  match ctx.indexer with
  | Option.none => rules
  | some indexer =>
    if rules.length > 10 then
      let urlIds := match ctx.tab.bind (fun t => t.url) with
        | some u => getRulesForUrl indexer u
        | Option.none => []
      let sceneIds := match scene with
        | some s => getRulesForScene indexer s.id
        | Option.none => []
      let osIds := match ctx.osKind with
        | some k => getRulesForOS indexer k
        | Option.none => []
      let candidateRuleIds := dedupKeepFirst (urlIds ++ sceneIds ++ osIds)
      if 0 < candidateRuleIds.length ∧ candidateRuleIds.length < rules.length then
        let indexedRules := candidateRuleIds.filterMap (getRule indexer)
        let nonIndexedRules := rules.filter
          (fun r => ¬hasUrlTrigger r ∧ ¬hasSceneTrigger r ∧ ¬hasOsTrigger r)
        indexedRules ++ nonIndexedRules
      else rules
    else rules

/-- `rule.priority ?? 0`. -/
def priorityOf (r : IRuleConfig) : Int :=
  r.priority.getD 0

/-- Stable insertion of a rule into a priority-sorted list: the new rule goes
after every rule of smaller or equal priority. -/
def insertSorted (r : IRuleConfig) : List IRuleConfig → List IRuleConfig
  | [] => [r]
  | x :: xs => if priorityOf r < priorityOf x then r :: x :: xs else x :: insertSorted r xs

/-- The stable ascending-priority sort of `processRule` (JS `sort` with
`priorityA - priorityB` is stable, so equal priorities keep their order). -/
def sortRules (rs : List IRuleConfig) : List IRuleConfig :=
  rs.foldl (fun acc r => insertSorted r acc) []

/-- A per-rule processing step: the handler after the step together with an
optional thrown error.  The loop of `processRule` is stated generically in
the step so that arbitrary per-rule failures can be quantified over; the
real step (`processStep`) never throws because its spec-modelled components
are total. -/
abbrev StepFun := IRuleConfig → RunningProcessContext → ExecuteTaskHandler →
  ExecuteTaskHandler × Option String

/-- The per-rule body of `processRule`'s loop: the real `process` call, which
produces no error. -/
def processStep (scene : Option IScene) (groups : Option (List IGroup)) : StepFun :=
  fun rule rctx h => (process rule scene groups rctx h, Option.none)

/-- The try/catch loop of `processRule` (source lines 138–146): every rule is
attempted in order on a per-rule copy of the context; an error is logged and
the loop continues with the handler state the step left behind.  The second
component records the attempted rules. -/
def runRuleLoop (step : StepFun) (ctx : ProcessContext)
    (rules : List IRuleConfig) (h0 : ExecuteTaskHandler) :
    ExecuteTaskHandler × List IRuleConfig :=
  rules.foldl
    (fun acc rule =>
      let copyCtx : RunningProcessContext :=
        { toProcessContext := ctx, rule := some rule, matchResult := Option.none }
      ((step rule copyCtx acc.1).1, acc.2 ++ [rule]))
    (h0, [])

/-- `processRule` up to (but not including) `execute()`: candidate
selection, the ascending-priority sort and the guarded per-rule loop over one
fresh handler; `none` models the early return on a missing rule list. -/
def processRuleHandler (step : StepFun) (scene : Option IScene)
    (rules? : Option (List IRuleConfig)) (ctx : ProcessContext) :
    Option ExecuteTaskHandler :=
  match rules? with
  | Option.none => Option.none
  | some rules =>
    let sortedRules := sortRules (rulesToProcess rules scene ctx)
    some (runRuleLoop step ctx sortedRules ⟨[]⟩).1

/-- The tasks accumulated by one full evaluation round over `rules`. -/
def roundTasks (rules : List IRuleConfig) (scene : Option IScene)
    (groups : Option (List IGroup)) (ctx : ProcessContext) : List ExecuteTask :=
  match processRuleHandler (processStep scene groups) scene (some rules) ctx with
  | some h => h.tasks
  | Option.none => []

/-- The state-change calls issued by one full evaluation round. -/
def roundCalls (rules : List IRuleConfig) (scene : Option IScene)
    (groups : Option (List IGroup)) (ctx : ProcessContext)
    (installed : List (String × Bool)) : List StateCall :=
  executeCalls (roundTasks rules scene groups ctx) installed

/-- The whole of `processRule` with an arbitrary fallible step, returning the
attempted rules, the accumulated tasks and the executed calls (§4.5 execute
included). -/
def processRuleOutcome (step : StepFun) (scene : Option IScene)
    (rules : List IRuleConfig) (ctx : ProcessContext)
    (installed : List (String × Bool)) :
    List IRuleConfig × List ExecuteTask × List StateCall :=
  let sortedRules := sortRules (rulesToProcess rules scene ctx)
  let res := runRuleLoop step ctx sortedRules ⟨[]⟩
  (res.2, res.1.tasks, executeCalls res.1.tasks installed)

/-! ## Always-On enforcement (`AlwaysOnGroupHandler`, translated from the
source `extension/index.js`) -/

/-- Record a state change in the installed-extension table (the effect of a
completed `setEnabled` host call). -/
def setInstalled (installed : List (String × Bool)) (id : String) (b : Bool) :
    List (String × Bool) :=
  installed.map (fun e => if e.1 = id then (e.1, b) else e)

/-- The requests `enableAlwaysOnExtensions` feeds into its fresh
`ExecuteTaskHandler`: collect the members of every group flagged always-on,
drop the controller's id, everything already enabled and everything not
installed (`management.get` throws), and feed one open request for the
remainder; each early-return of the source feeds nothing. -/
def alwaysOnTasks (groups : List IGroup) (installed : List (String × Bool))
    (selfId : String) : List ExecuteTask :=
  let alwaysOnGroups := groups.filter (fun g => g.alwaysOn = some true)
  if alwaysOnGroups.isEmpty then []
  else
    let extensionIds :=
      dedupKeepFirst (alwaysOnGroups.foldl (fun acc g => acc ++ g.extensions) [])
    if extensionIds.isEmpty then []
    else
      let extensionsToEnable := extensionIds.filter
        (fun extId => extId ≠ selfId ∧ getInfo installed extId = some false)
      if extensionsToEnable.isEmpty then []
      else (ExecuteTaskHandler.openTask ⟨[]⟩ extensionsToEnable false {}).tasks

/-- `enableAlwaysOnExtensions` from the source: the state-change calls of the
always-on round — the fed requests executed against the installed table (an
early return feeds no request and issues zero calls). -/
def enableAlwaysOnExtensions (groups : List IGroup)
    (installed : List (String × Bool)) (selfId : String) : List StateCall :=
  executeCalls (alwaysOnTasks groups installed selfId) installed

/-! ## Mutual-Exclusion enforcement (`MutexGroupHandler`, translated from the
source) -/

/-- The inner loop of `handleExtensionEnabled` over one mutex group's member
list: every member other than the newly enabled id and the controller is
re-queried against the live installed table and disabled when still enabled;
the table is threaded because each issued disable changes what later
iterations observe. -/
def disableOthers (members : List String) (enabledId selfId : String)
    (acc : List StateCall × List (String × Bool)) :
    List StateCall × List (String × Bool) :=
  (members.filter (fun id => id ≠ enabledId ∧ id ≠ selfId)).foldl
    (fun acc extId =>
      match getInfo acc.2 extId with
      | some true =>
        (acc.1 ++ [StateCall.setEnabled extId false], setInstalled acc.2 extId false)
      | _ => acc)
    acc

/-- `handleExtensionEnabled` from the source: ignore the controller's own
enable event, then for every mutex group containing the enabled id disable
its other still-enabled members. -/
def handleExtensionEnabled (groups : List IGroup)
    (installed : List (String × Bool)) (selfId enabledId : String) :
    List StateCall :=
  if enabledId = selfId then []
  else
    let mutexGroups := groups.filter (fun g => g.isMutex = some true)
    if mutexGroups.isEmpty then []
    else
      (mutexGroups.foldl
        (fun acc g =>
          if g.extensions = [] then acc
          else if enabledId ∈ g.extensions then
            disableOthers g.extensions enabledId selfId acc
          else acc)
        ([], installed)).1

/-! ## Claim-side characterizations -/

/-- The extension id a state-change call addresses. -/
def callId : StateCall → String
  | StateCall.setEnabled id _ => id

/-- The conflict-resolution policy as the specification words it: among the
round's tasks mentioning `id`, the task with the highest `(level,
!isFallback)` key wins and ties go to the last-appended task — i.e. the
first task from the right whose key is at least every key in the filtered
list. -/
def lastMaxWinner (tasks : List ExecuteTask) (id : String) : Option ExecuteTask :=
  let l := tasks.filter (fun t => decide (id ∈ t.targetExtensions))
  l.reverse.find? (fun t => l.all (fun u => decide (keyLe (keyOf u) (keyOf t))))

/-- Whether a custom-mode scope condition holds against a match result. -/
def scopeHolds (s : UrlMatchWhen) (mr : IMatchResult) : Bool :=
  match s with
  | UrlMatchWhen.currentMatch => mr.isCurrentMatch
  | UrlMatchWhen.anyMatch => mr.isAnyMatch
  | UrlMatchWhen.currentNotMatch => !mr.isCurrentMatch
  | UrlMatchWhen.allNotMatch => !mr.isAnyMatch

/-- Whether a timing condition is the one governing a scope condition: the
`match` timing pairs with the match scopes, the `notMatch` timing with the
not-match scopes (these are the four guarded branches per gate in
`handleAdvanceMode`; `closeWindow` governs nothing — its branch is
unimplemented in the source). -/
def timingGoverns (t : TimeWhen) (s : UrlMatchWhen) : Bool :=
  match t, s with
  | TimeWhen.onMatch, UrlMatchWhen.currentMatch => true
  | TimeWhen.onMatch, UrlMatchWhen.anyMatch => true
  | TimeWhen.onNotMatch, UrlMatchWhen.currentNotMatch => true
  | TimeWhen.onNotMatch, UrlMatchWhen.allNotMatch => true
  | _, _ => false

/-- The enable gate fires iff its timing and scope conditions both hold. -/
def enableGateFires (c : ICustomAction) (mr : IMatchResult) : Bool :=
  timingGoverns c.timeWhenEnable c.urlMatchWhenEnable &&
    scopeHolds c.urlMatchWhenEnable mr

/-- The disable gate fires iff its timing and scope conditions both hold. -/
def disableGateFires (c : ICustomAction) (mr : IMatchResult) : Bool :=
  timingGoverns c.timeWhenDisable c.urlMatchWhenDisable &&
    scopeHolds c.urlMatchWhenDisable mr

/-- The open request the enable gate appends when it fires: the `anyMatch`
branch reloads only under a current match, and the `notMatch` timing yields
a fallback-marked priority. -/
def enableGateTask (c : ICustomAction) (mr : IMatchResult)
    (targetExtensions : List String) (reloadAfterEnable : Bool) : ExecuteTask :=
  { kind := TaskKind.openK
    targetExtensions := targetExtensions
    reload :=
      if c.urlMatchWhenEnable = UrlMatchWhen.anyMatch then
        mr.isCurrentMatch && reloadAfterEnable
      else reloadAfterEnable
    priority :=
      if c.timeWhenEnable = TimeWhen.onNotMatch then
        ExecuteTaskPriority.setNotMatch {}
      else {} }

/-- The close request the disable gate appends when it fires. -/
def disableGateTask (c : ICustomAction) (mr : IMatchResult)
    (targetExtensions : List String) (reloadAfterDisable : Bool) : ExecuteTask :=
  { kind := TaskKind.closeK
    targetExtensions := targetExtensions
    reload :=
      if c.urlMatchWhenDisable = UrlMatchWhen.anyMatch then
        mr.isCurrentMatch && reloadAfterDisable
      else reloadAfterDisable
    priority :=
      if c.timeWhenDisable = TimeWhen.onNotMatch then
        ExecuteTaskPriority.setNotMatch {}
      else {} }

/-- The per-call soundness property of Mutual-Exclusion enforcement: a call
disables (never enables) an id that is not the controller, not the newly
enabled id, was enabled at notification time, and shares a mutex group with
the enabled id. -/
def MutexCallOK (groups : List IGroup) (original : List (String × Bool))
    (selfId enabledId : String) (c : StateCall) : Prop :=
  ∃ id, c = StateCall.setEnabled id false ∧ id ≠ selfId ∧ id ≠ enabledId ∧
    getInfo original id = some true ∧
    ∃ g ∈ groups, g.isMutex = some true ∧ enabledId ∈ g.extensions ∧
      id ∈ g.extensions

/-- The loop invariant of Mutual-Exclusion enforcement: every issued call is
sound, no id is disabled twice, and the threaded installed table is the
original one with exactly the called ids flipped to disabled. -/
def MutexAccOK (groups : List IGroup) (original : List (String × Bool))
    (selfId enabledId : String)
    (acc : List StateCall × List (String × Bool)) : Prop :=
  (∀ c ∈ acc.1, MutexCallOK groups original selfId enabledId c) ∧
  (acc.1.map callId).Nodup ∧
  (∀ x, getInfo acc.2 x =
    if x ∈ acc.1.map callId then some false else getInfo original x)

/-! ## Concrete inputs used by counterexamples and witnesses -/

/-- A rule gated on a scene that is never active, targeting `ext3`. -/
def mkSceneRule (n : String) : IRuleConfig :=
  { id := some n
    enable := true
    priority := some 0
    match_ := some
      { relationship := MatchRelation.relAnd
        triggers := some
          [ITrigger.sceneTrigger
            (some { sceneId := Option.none, sceneIds := some ["other-scene"] })] }
    target := some { groups := Option.none, extensions := some ["ext3"] }
    action := some
      { actionType := ActionType.openWhenMatched
        reloadAfterEnable := false
        reloadAfterDisable := false
        custom := Option.none } }

/-- A rule whose URL trigger matches the current tab's domain, with action
`none`. -/
def rB : IRuleConfig :=
  { id := some "rb"
    enable := true
    priority := some 0
    match_ := some
      { relationship := MatchRelation.relOr
        triggers := some [ITrigger.urlTrigger (some { matchUrl := ["*b.com*"] })] }
    target := some { groups := Option.none, extensions := some ["ext1"] }
    action := some
      { actionType := ActionType.none
        reloadAfterEnable := false
        reloadAfterDisable := false
        custom := Option.none } }

/-- A rule combining a URL trigger for another domain with an always-true
period trigger under `or`: it matches the context via the period trigger,
yet the index only records it under `a.com`. -/
def rP : IRuleConfig :=
  { id := some "rp"
    enable := true
    priority := some 0
    match_ := some
      { relationship := MatchRelation.relOr
        triggers := some
          [ITrigger.urlTrigger (some { matchUrl := ["*a.com*"] }),
           ITrigger.periodTrigger
             (some { periods := [{ startMinute := 0, endMinute := 1440 }] })] }
    target := some { groups := Option.none, extensions := some ["ext2"] }
    action := some
      { actionType := ActionType.openWhenMatched
        reloadAfterEnable := false
        reloadAfterDisable := false
        custom := Option.none } }

/-- Eleven enabled rules (over the indexing threshold): `rB`, `rP` and nine
scene-gated rules. -/
def c1Rules : List IRuleConfig :=
  [rB, rP, mkSceneRule "r3", mkSceneRule "r4", mkSceneRule "r5", mkSceneRule "r6",
   mkSceneRule "r7", mkSceneRule "r8", mkSceneRule "r9", mkSceneRule "r10",
   mkSceneRule "r11"]

/-- Context on `https://b.com/` with no scene and no indexer (full scan). -/
def c1CtxBase : ProcessContext :=
  { selfId := "self"
    tab := some { url := some "https://b.com/" }
    tabs := [{ url := some "https://b.com/" }]
    osKind := Option.none
    nowMinutes := 100
    indexer := Option.none }

/-- The same context with the index rebuilt from `c1Rules`. -/
def c1CtxIndexed : ProcessContext :=
  { c1CtxBase with indexer := some (rebuildIndex c1Rules) }

/-- A small helper building a simple-mode rule. -/
def simpleRule (n : String) (pr : Int) (at_ : ActionType) (tgt : String)
    (trig : Option (List ITrigger)) : IRuleConfig :=
  { id := some n
    enable := true
    priority := some pr
    match_ := some { relationship := MatchRelation.relAnd, triggers := trig }
    target := some { groups := Option.none, extensions := some [tgt] }
    action := some
      { actionType := at_
        reloadAfterEnable := false
        reloadAfterDisable := false
        custom := Option.none } }

/-- A bare context with no tabs, scene, OS or indexer. -/
def plainCtx : ProcessContext :=
  { selfId := "self"
    tab := Option.none
    tabs := []
    osKind := Option.none
    nowMinutes := 0
    indexer := Option.none }

/-- Equal-priority rule A: close `extX` when matched (vacuously matched). -/
def tieA : IRuleConfig := simpleRule "ta" 1 ActionType.closeWhenMatched "extX" Option.none

/-- Equal-priority rule B, appended after A: open `extX` when matched. -/
def tieB : IRuleConfig := simpleRule "tb" 1 ActionType.openWhenMatched "extX" Option.none

/-- A trigger list requiring a scene that is not active in `plainCtx`. -/
def notMatchedTrig : Option (List ITrigger) :=
  some [ITrigger.sceneTrigger (some { sceneId := some "other", sceneIds := Option.none })]

/-- A matched open of `extY` at priority 5. -/
def fbOpen : IRuleConfig := simpleRule "fo" 5 ActionType.openWhenMatched "extY" Option.none

/-- An unmatched `openOnlyWhenMatched` rule at priority 5 on `extY`: its
fallback close is appended after `fbOpen`'s open. -/
def fbRule : IRuleConfig :=
  simpleRule "fr" 5 ActionType.openOnlyWhenMatched "extY" notMatchedTrig

/-- A disabled rule that would open `extZ` if it were enabled. -/
def disabledRule : IRuleConfig :=
  { simpleRule "dz" 0 ActionType.openWhenMatched "extZ" Option.none with enable := false }

/-- An always-on group containing the controller, an enabled and a disabled
member. -/
def gAO : IGroup :=
  { id := "g1", name := "g", desc := "", extensions := ["extC", "extD", "self"],
    alwaysOn := some true, isMutex := Option.none }

/-- A mutex group containing the controller and two members. -/
def gMX : IGroup :=
  { id := "g2", name := "m", desc := "", extensions := ["extA", "extB", "self"],
    alwaysOn := Option.none, isMutex := some true }

/-- A rule with only a period trigger (a pure time-window rule): it carries
no URL, scene or OS trigger, so the index cannot discover it. -/
def pureTimeRule : IRuleConfig :=
  { id := some "pt"
    enable := true
    priority := some 0
    match_ := some
      { relationship := MatchRelation.relOr
        triggers := some
          [ITrigger.periodTrigger
            (some { periods := [{ startMinute := 0, endMinute := 1440 }] })] }
    target := some { groups := Option.none, extensions := some ["ext4"] }
    action := some
      { actionType := ActionType.openWhenMatched
        reloadAfterEnable := false
        reloadAfterDisable := false
        custom := Option.none } }

/-- `c1Rules` extended with the pure time-window rule. -/
def c1RulesWithTime : List IRuleConfig := c1Rules ++ [pureTimeRule]

/-- The `c1CtxBase` context indexed over `c1RulesWithTime`. -/
def c1CtxIndexedWithTime : ProcessContext :=
  { c1CtxBase with indexer := some (rebuildIndex c1RulesWithTime) }

/-! # Theorems -/

/-- C10: a rule whose enable flag is false contributes nothing: `process`
returns the accumulator unchanged, before match evaluation and target
resolution can append anything. -/
theorem c10_disabled_rule_no_tasks :
    ∀ (rule : IRuleConfig) (scene : Option IScene) (groups : Option (List IGroup))
      (ctx : RunningProcessContext) (h : ExecuteTaskHandler),
    rule.enable = false → process rule scene groups ctx h = h := by
  intro rule scene groups ctx h he
  simp [process, he]

/-- Witness for C10: the concrete disabled rule appends no task. -/
theorem c10_witness :
    disabledRule.enable = false ∧
      process disabledRule Option.none Option.none
        ⟨plainCtx, some disabledRule, Option.none⟩ ⟨[]⟩ = ⟨[]⟩ :=
  ⟨by decide, c10_disabled_rule_no_tasks disabledRule Option.none Option.none
    ⟨plainCtx, some disabledRule, Option.none⟩ ⟨[]⟩ (by decide)⟩

/-- C9: the index lookups degrade to the empty candidate set, never an
error — `getRulesForUrl` on an unparsable URL, `getRulesForUrl` when
neither the URL's two-label domain nor its full hostname is indexed, and
`getRulesForScene`/`getRulesForOS` on unindexed keys. -/
theorem c9_index_misses_yield_empty :
    ∀ (idx : RuleIndexer) (url sceneId osType : String),
    (parseHostname url = Option.none → getRulesForUrl idx url = []) ∧
    (∀ hostname, parseHostname url = some hostname →
      indexLookup idx.domainIndex (extractDomain hostname) = Option.none →
      indexLookup idx.domainIndex hostname = Option.none →
      getRulesForUrl idx url = []) ∧
    (indexLookup idx.sceneIndex sceneId = Option.none →
      getRulesForScene idx sceneId = []) ∧
    (indexLookup idx.osIndex osType = Option.none →
      getRulesForOS idx osType = []) := by
  intro idx url sceneId osType
  refine ⟨?_, ?_, ?_, ?_⟩
  · intro hp
    simp [getRulesForUrl, hp]
  · intro hostname hp hd hh
    simp [getRulesForUrl, hp, hd, hh]
  · intro hs
    simp [getRulesForScene, hs]
  · intro ho
    simp [getRulesForOS, ho]

/-- Witness for C9: concrete empty results on a malformed URL, an unindexed
hostname, and unindexed scene/OS keys. -/
theorem c9_witness :
    getRulesForUrl (rebuildIndex []) "not a url" = [] ∧
    getRulesForUrl (rebuildIndex []) "https://x.y.example.org/p" = [] ∧
    getRulesForScene (rebuildIndex []) "s1" = [] ∧
    getRulesForOS (rebuildIndex []) "mac" = [] :=
  ⟨(c9_index_misses_yield_empty (rebuildIndex []) "not a url" "s1" "mac").1 (by decide),
   (c9_index_misses_yield_empty (rebuildIndex []) "https://x.y.example.org/p" "s1" "mac").2.1
     "x.y.example.org" (by decide) (by decide) (by decide),
   (c9_index_misses_yield_empty (rebuildIndex []) "not a url" "s1" "mac").2.2.1 (by decide),
   (c9_index_misses_yield_empty (rebuildIndex []) "not a url" "s1" "mac").2.2.2 (by decide)⟩

/-- The guarded loop of `processRule` visits every rule of the sorted list,
whatever the steps do. -/
theorem runRuleLoop_attempts_all (step : StepFun) (ctx : ProcessContext) :
    ∀ (l : List IRuleConfig) (h0 : ExecuteTaskHandler) (a0 : List IRuleConfig),
    (l.foldl
      (fun acc rule =>
        ((step rule ⟨ctx, some rule, Option.none⟩ acc.1).1, acc.2 ++ [rule]))
      (h0, a0)).2 = a0 ++ l := by
  intro l
  induction l with
  | nil => intro h0 a0; simp
  | cons r rest ih =>
    intro h0 a0
    simp only [List.foldl_cons]
    rw [ih]
    simp

/-- C8: for an arbitrary fallible per-rule step, the round attempts every
sorted rule (a thrown error does not abort the loop), the outcome never
depends on the errors (they are caught and logged, not rethrown), and the
batched execute is still issued on the final accumulator. -/
theorem c8_failures_do_not_abort_round :
    ∀ (step : StepFun) (scene : Option IScene) (rules : List IRuleConfig)
      (ctx : ProcessContext) (installed : List (String × Bool)),
    (processRuleOutcome step scene rules ctx installed).1 =
        sortRules (rulesToProcess rules scene ctx) ∧
    processRuleOutcome step scene rules ctx installed =
      processRuleOutcome (fun r c h => ((step r c h).1, Option.none))
        scene rules ctx installed ∧
    (processRuleOutcome step scene rules ctx installed).2.2 =
      executeCalls (processRuleOutcome step scene rules ctx installed).2.1 installed := by
  intro step scene rules ctx installed
  refine ⟨?_, rfl, rfl⟩
  have := runRuleLoop_attempts_all step ctx (sortRules (rulesToProcess rules scene ctx)) ⟨[]⟩ []
  simpa [processRuleOutcome, runRuleLoop] using this

/-- C1 counterexample: with the index built from `c1Rules` on the context at
`https://b.com/`, the candidate rules unioned with the no-URL/scene/OS-trigger
rules produce no task, while the full scan produces the open of `ext2`
demanded by `rP` (matched via its period trigger under `or`) — the two
result sets differ. -/
theorem c1_index_union_counterexample :
    roundTasks c1Rules Option.none Option.none c1CtxIndexed = [] ∧
    roundTasks c1Rules Option.none Option.none c1CtxBase =
      [{ kind := TaskKind.openK, targetExtensions := ["ext2"], reload := false,
         priority := {} }] ∧
    roundTasks c1Rules Option.none Option.none c1CtxIndexed ≠
      roundTasks c1Rules Option.none Option.none c1CtxBase :=
  ⟨by decide, by decide, by decide⟩

/-- C1 amended: every rule with no URL, scene or OS trigger is always
included in the processed set alongside the index-derived candidates (the
exact full-scan equivalence fails, see the counterexample). -/
theorem c1_amended_nonindexable_included :
    ∀ (rules : List IRuleConfig) (scene : Option IScene) (ctx : ProcessContext)
      (r : IRuleConfig),
    r ∈ rules → hasUrlTrigger r = false → hasSceneTrigger r = false →
    hasOsTrigger r = false → r ∈ rulesToProcess rules scene ctx := by
  intro rules scene ctx r hr h1 h2 h3
  unfold rulesToProcess
  cases ctx.indexer with
  | none => exact hr
  | some indexer =>
    by_cases hlen : rules.length > 10
    · simp only [hlen, if_true]
      split
      · refine List.mem_append_right _ ?_
        refine List.mem_filter.mpr ⟨hr, ?_⟩
        simp [h1, h2, h3]
      · exact hr
    · simp [hlen, hr]

/-- Witness for C1's amended theorem: the pure time-window rule survives the
index-path pruning of the twelve-rule set. -/
theorem c1_amended_witness :
    pureTimeRule ∈ c1RulesWithTime ∧
      pureTimeRule ∈ rulesToProcess c1RulesWithTime Option.none c1CtxIndexedWithTime :=
  ⟨by decide, c1_amended_nonindexable_included c1RulesWithTime Option.none
    c1CtxIndexedWithTime pureTimeRule (by decide) (by decide) (by decide) (by decide)⟩

/-- C4: the simple-mode action table — `openWhenMatched`/`closeWhenMatched`
append their request only under a current match, the `...OnlyWhenMatched`
variants always append exactly one request (the primary kind at the rule's
priority when matched, the opposite kind marked `isFallback` at the same
level when not), and an action of type `none` appends nothing. -/
theorem c4_simple_mode_actions :
    ∀ (mr : IMatchResult) (tgts : List String) (act : IAction)
      (ctx : RunningProcessContext) (h : ExecuteTaskHandler),
    (act.actionType = ActionType.openWhenMatched →
      (handleSimpleMode mr tgts act ctx h).tasks = h.tasks ++
        (if mr.isCurrentMatch then
          [⟨TaskKind.openK, tgts, act.reloadAfterEnable, rulePriority ctx.rule⟩]
         else [])) ∧
    (act.actionType = ActionType.closeWhenMatched →
      (handleSimpleMode mr tgts act ctx h).tasks = h.tasks ++
        (if mr.isCurrentMatch then
          [⟨TaskKind.closeK, tgts, act.reloadAfterDisable, rulePriority ctx.rule⟩]
         else [])) ∧
    (act.actionType = ActionType.openOnlyWhenMatched →
      (handleSimpleMode mr tgts act ctx h).tasks = h.tasks ++
        (if mr.isCurrentMatch then
          [⟨TaskKind.openK, tgts, act.reloadAfterEnable, rulePriority ctx.rule⟩]
         else
          [⟨TaskKind.closeK, tgts, act.reloadAfterDisable,
            ExecuteTaskPriority.setNotMatch (rulePriority ctx.rule)⟩])) ∧
    (act.actionType = ActionType.closeOnlyWhenMatched →
      (handleSimpleMode mr tgts act ctx h).tasks = h.tasks ++
        (if mr.isCurrentMatch then
          [⟨TaskKind.closeK, tgts, act.reloadAfterDisable, rulePriority ctx.rule⟩]
         else
          [⟨TaskKind.openK, tgts, act.reloadAfterEnable,
            ExecuteTaskPriority.setNotMatch (rulePriority ctx.rule)⟩])) ∧
    (∀ cfg : IRuleConfig, cfg.action = some act →
      act.actionType = ActionType.none → handle tgts cfg ctx h = h) := by
  intro mr tgts act ctx h
  refine ⟨?_, ?_, ?_, ?_, ?_⟩
  · intro hat
    cases hcm : mr.isCurrentMatch <;>
      simp [handleSimpleMode, hat, hcm, ExecuteTaskHandler.openTask,
        ExecuteTaskHandler.closeTask]
  · intro hat
    cases hcm : mr.isCurrentMatch <;>
      simp [handleSimpleMode, hat, hcm, ExecuteTaskHandler.openTask,
        ExecuteTaskHandler.closeTask]
  · intro hat
    cases hcm : mr.isCurrentMatch <;>
      simp [handleSimpleMode, hat, hcm, ExecuteTaskHandler.openTask,
        ExecuteTaskHandler.closeTask]
  · intro hat
    cases hcm : mr.isCurrentMatch <;>
      simp [handleSimpleMode, hat, hcm, ExecuteTaskHandler.openTask,
        ExecuteTaskHandler.closeTask]
  · intro cfg hcfg hat
    simp only [handle, hcfg, hat]
    cases ctx.matchResult <;> rfl

/-- Witness for C4: all five conjuncts exercised on concrete inputs — a
matched open, an unmatched close-when-matched (nothing), a matched
open-only, an unmatched close-only producing its fallback open, and a
`none` action. -/
theorem c4_witness :
    (handleSimpleMode ⟨true, true⟩ ["e1"]
        ⟨ActionType.openWhenMatched, false, false, Option.none⟩
        ⟨plainCtx, Option.none, Option.none⟩ ⟨[]⟩).tasks =
      [⟨TaskKind.openK, ["e1"], false, ⟨0, false⟩⟩] ∧
    (handleSimpleMode ⟨false, false⟩ ["e1"]
        ⟨ActionType.closeWhenMatched, false, false, Option.none⟩
        ⟨plainCtx, Option.none, Option.none⟩ ⟨[]⟩).tasks = [] ∧
    (handleSimpleMode ⟨true, true⟩ ["e1"]
        ⟨ActionType.openOnlyWhenMatched, false, false, Option.none⟩
        ⟨plainCtx, Option.none, Option.none⟩ ⟨[]⟩).tasks =
      [⟨TaskKind.openK, ["e1"], false, ⟨0, false⟩⟩] ∧
    (handleSimpleMode ⟨false, false⟩ ["e1"]
        ⟨ActionType.closeOnlyWhenMatched, false, false, Option.none⟩
        ⟨plainCtx, Option.none, Option.none⟩ ⟨[]⟩).tasks =
      [⟨TaskKind.openK, ["e1"], false, ⟨0, true⟩⟩] ∧
    handle ["e1"] rB ⟨plainCtx, some rB, some ⟨true, true⟩⟩ ⟨[]⟩ = ⟨[]⟩ := by
  refine ⟨?_, ?_, ?_, ?_, ?_⟩
  · exact (c4_simple_mode_actions ⟨true, true⟩ ["e1"]
      ⟨ActionType.openWhenMatched, false, false, Option.none⟩
      ⟨plainCtx, Option.none, Option.none⟩ ⟨[]⟩).1 (by decide)
  · exact (c4_simple_mode_actions ⟨false, false⟩ ["e1"]
      ⟨ActionType.closeWhenMatched, false, false, Option.none⟩
      ⟨plainCtx, Option.none, Option.none⟩ ⟨[]⟩).2.1 (by decide)
  · exact (c4_simple_mode_actions ⟨true, true⟩ ["e1"]
      ⟨ActionType.openOnlyWhenMatched, false, false, Option.none⟩
      ⟨plainCtx, Option.none, Option.none⟩ ⟨[]⟩).2.2.1 (by decide)
  · exact (c4_simple_mode_actions ⟨false, false⟩ ["e1"]
      ⟨ActionType.closeOnlyWhenMatched, false, false, Option.none⟩
      ⟨plainCtx, Option.none, Option.none⟩ ⟨[]⟩).2.2.2.1 (by decide)
  · exact (c4_simple_mode_actions ⟨true, true⟩ ["e1"]
      ⟨ActionType.none, false, false, Option.none⟩
      ⟨plainCtx, some rB, some ⟨true, true⟩⟩ ⟨[]⟩).2.2.2.2 rB (by decide) (by decide)

/-- The full characterization of `handleAdvanceMode`: its appended tasks are
the enable-gate segment followed by the disable-gate segment, each present
exactly when its gate fires. -/
theorem handleAdvanceMode_tasks_eq :
    ∀ (mr : IMatchResult) (tgts : List String) (act : IAction)
      (ctx : RunningProcessContext) (h : ExecuteTaskHandler) (c : ICustomAction),
    act.custom = some c →
    (handleAdvanceMode mr tgts act ctx h).tasks = h.tasks ++
      (if enableGateFires c mr then [enableGateTask c mr tgts act.reloadAfterEnable] else []) ++
      (if disableGateFires c mr then [disableGateTask c mr tgts act.reloadAfterDisable] else []) := by
  intro mr tgts act ctx h c hc
  obtain ⟨te, ue, td, ud⟩ := c
  cases te <;> cases ue <;> cases td <;> cases ud <;>
    cases hcm : mr.isCurrentMatch <;> cases ham : mr.isAnyMatch <;>
      simp [handleAdvanceMode, hc, enableGateFires, disableGateFires,
        enableGateTask, disableGateTask, timingGoverns, scopeHolds, hcm, ham,
        ExecuteTaskHandler.openTask, ExecuteTaskHandler.closeTask]

/-- C5: in custom mode the enable and disable gates are evaluated
independently (the appended tasks are the concatenation of the two gates'
segments, each depending only on its own configuration), a gate fires iff
its timing condition governs its scope condition and the scope condition
holds against the match result, and `notMatch`-timing requests carry
`isFallback = true` (visible in the gate-task priorities). -/
theorem c5_custom_mode_gates :
    ∀ (mr : IMatchResult) (tgts : List String) (act : IAction)
      (ctx : RunningProcessContext) (h : ExecuteTaskHandler) (c : ICustomAction),
    act.custom = some c →
    (handleAdvanceMode mr tgts act ctx h).tasks = h.tasks ++
      (if enableGateFires c mr then [enableGateTask c mr tgts act.reloadAfterEnable] else []) ++
      (if disableGateFires c mr then [disableGateTask c mr tgts act.reloadAfterDisable] else []) := by
  intro mr tgts act ctx h c hc
  exact handleAdvanceMode_tasks_eq mr tgts act ctx h c hc

/-- Witness for C5: a custom action whose enable gate fires on
`currentNotMatch` timing (fallback open) while its disable gate fires on
`anyMatch` (close), both in the same round — the result against an
unmatched-current, matched-any result is the fallback open followed by the
close. -/
theorem c5_witness :
    (handleAdvanceMode ⟨false, true⟩ ["e2"]
        ⟨ActionType.custom, true, true,
          some ⟨TimeWhen.onNotMatch, UrlMatchWhen.currentNotMatch,
                TimeWhen.onMatch, UrlMatchWhen.anyMatch⟩⟩
        ⟨plainCtx, Option.none, Option.none⟩ ⟨[]⟩).tasks =
      [⟨TaskKind.openK, ["e2"], true, ⟨0, true⟩⟩,
       ⟨TaskKind.closeK, ["e2"], false, ⟨0, false⟩⟩] := by
  have := c5_custom_mode_gates ⟨false, true⟩ ["e2"]
    ⟨ActionType.custom, true, true,
      some ⟨TimeWhen.onNotMatch, UrlMatchWhen.currentNotMatch,
            TimeWhen.onMatch, UrlMatchWhen.anyMatch⟩⟩
    ⟨plainCtx, Option.none, Option.none⟩ ⟨[]⟩
    ⟨TimeWhen.onNotMatch, UrlMatchWhen.currentNotMatch,
     TimeWhen.onMatch, UrlMatchWhen.anyMatch⟩ (by decide)
  rw [this]
  decide



/-- Tasks appended by `handleSimpleMode` carry exactly the given target
list. -/
theorem mem_tasks_handleSimpleMode (mr : IMatchResult) (tgts : List String)
    (act : IAction) (ctx : RunningProcessContext) (h : ExecuteTaskHandler)
    (t : ExecuteTask) :
    t ∈ (handleSimpleMode mr tgts act ctx h).tasks →
      t ∈ h.tasks ∨ t.targetExtensions = tgts := by
  simp only [handleSimpleMode, ExecuteTaskHandler.openTask, ExecuteTaskHandler.closeTask]
  split_ifs <;> simp_all [List.mem_append] <;> rintro (ht | rfl)
  all_goals simp_all

/-- Tasks appended by `handleAdvanceMode` carry exactly the given target
list. -/
theorem mem_tasks_handleAdvanceMode (mr : IMatchResult) (tgts : List String)
    (act : IAction) (ctx : RunningProcessContext) (h : ExecuteTaskHandler)
    (t : ExecuteTask) :
    t ∈ (handleAdvanceMode mr tgts act ctx h).tasks →
      t ∈ h.tasks ∨ t.targetExtensions = tgts := by
  cases hc : act.custom with
  | none =>
    simp only [handleAdvanceMode, hc]
    intro ht
    exact Or.inl ht
  | some c =>
    rw [handleAdvanceMode_tasks_eq mr tgts act ctx h c hc]
    intro ht
    rcases List.mem_append.mp ht with ht2 | ht3
    · rcases List.mem_append.mp ht2 with hmem | hseg
      · exact Or.inl hmem
      · right
        split_ifs at hseg
        · simp only [List.mem_singleton] at hseg
          rw [hseg]
          rfl
        · simp at hseg
    · right
      split_ifs at ht3
      · simp only [List.mem_singleton] at ht3
        rw [ht3]
        rfl
      · simp at ht3

/-- Tasks appended by `handle` carry exactly the given target list. -/
theorem mem_tasks_handle (tgts : List String) (cfg : IRuleConfig)
    (ctx : RunningProcessContext) (h : ExecuteTaskHandler) (t : ExecuteTask) :
    t ∈ (handle tgts cfg ctx h).tasks → t ∈ h.tasks ∨ t.targetExtensions = tgts := by
  cases hmr : ctx.matchResult with
  | none => simp only [handle, hmr]; intro ht; exact Or.inl ht
  | some mr =>
    cases hact : cfg.action with
    | none => simp only [handle, hmr, hact]; intro ht; exact Or.inl ht
    | some act =>
      simp only [handle, hmr, hact]
      split_ifs with h1 h2
      · intro ht; exact Or.inl ht
      · exact mem_tasks_handleAdvanceMode mr tgts act ctx h t
      · exact mem_tasks_handleSimpleMode mr tgts act ctx h t

/-- Tasks appended by `process` never mention the controller's own id,
because the resolved targets are filtered against it before `handle`. -/
theorem mem_tasks_process (rule : IRuleConfig) (scene : Option IScene)
    (groups : Option (List IGroup)) (ctx : RunningProcessContext)
    (h : ExecuteTaskHandler) (t : ExecuteTask) :
    t ∈ (process rule scene groups ctx h).tasks →
      t ∈ h.tasks ∨ ctx.selfId ∉ t.targetExtensions := by
  simp only [process]
  by_cases he : rule.enable = true
  · rw [if_neg (by simp [he])]
    cases hgt : getTarget groups rule with
    | none => simp only [hgt]; intro ht; exact Or.inl ht
    | some tgt =>
      simp only [hgt]
      split_ifs with hempty
      · intro ht; exact Or.inl ht
      · intro ht
        rcases mem_tasks_handle _ rule _ h t ht with hmem | htgts
        · exact Or.inl hmem
        · right
          rw [htgts]
          intro hself
          rcases List.mem_filter.mp hself with ⟨_, hne⟩
          simp at hne
  · rw [if_pos (by simp [he])]
    intro ht; exact Or.inl ht



/-- Tasks accumulated by the round loop never mention the controller's own
id. -/
theorem mem_tasks_runRuleLoop (scene : Option IScene)
    (groups : Option (List IGroup)) (ctx : ProcessContext) (t : ExecuteTask) :
    ∀ (l : List IRuleConfig) (acc : ExecuteTaskHandler × List IRuleConfig),
    t ∈ (l.foldl
      (fun acc rule =>
        (((processStep scene groups) rule ⟨ctx, some rule, Option.none⟩ acc.1).1,
          acc.2 ++ [rule])) acc).1.tasks →
    t ∈ acc.1.tasks ∨ ctx.selfId ∉ t.targetExtensions := by
  intro l
  induction l with
  | nil => intro acc ht; exact Or.inl ht
  | cons r rest ih =>
    intro acc ht
    simp only [List.foldl_cons] at ht
    rcases ih _ ht with hmem | hout
    · simp only [processStep] at hmem
      rcases mem_tasks_process r scene groups ⟨ctx, some r, Option.none⟩ acc.1 t hmem with
        hmem2 | hout2
      · exact Or.inl hmem2
      · exact Or.inr hout2
    · exact Or.inr hout

/-- C2: no request fed into the Task Accumulator targets the controller's
own id — neither the per-rule requests of an evaluation round (the resolved
target set of every rule is filtered against the controller) nor the
requests issued by Always-On enforcement. -/
theorem c2_no_request_targets_self :
    ∀ (rules : List IRuleConfig) (scene : Option IScene)
      (groups : Option (List IGroup)) (ctx : ProcessContext),
    (∀ t ∈ roundTasks rules scene groups ctx, ctx.selfId ∉ t.targetExtensions) ∧
    (∀ (gs : List IGroup) (installed : List (String × Bool)),
      ∀ t ∈ alwaysOnTasks gs installed ctx.selfId,
        ctx.selfId ∉ t.targetExtensions) := by
  intro rules scene groups ctx
  constructor
  · intro t ht
    have hloop := mem_tasks_runRuleLoop scene groups ctx t
      (sortRules (rulesToProcess rules scene ctx)) (⟨[]⟩, [])
    simp only [roundTasks, processRuleHandler, runRuleLoop] at ht
    rcases hloop ht with hmem | hout
    · simp at hmem
    · exact hout
  · intro gs installed t ht
    simp only [alwaysOnTasks, ExecuteTaskHandler.openTask] at ht
    split_ifs at ht
    · simp at ht
    · simp at ht
    · simp at ht
    · simp at ht
      rw [ht]
      intro hself
      rcases List.mem_filter.mp hself with ⟨_, hne⟩
      simp at hne

/-- Witness for C2: concrete round and always-on tasks exist and exclude
the controller `"self"`. -/
theorem c2_witness :
    ("self" : String) ∉
      ExecuteTask.targetExtensions ⟨TaskKind.openK, ["extX"], false, ⟨1, false⟩⟩ ∧
    ("self" : String) ∉
      ExecuteTask.targetExtensions ⟨TaskKind.openK, ["extD"], false, ⟨0, false⟩⟩ :=
  ⟨(c2_no_request_targets_self [tieA, tieB] Option.none Option.none plainCtx).1
      ⟨TaskKind.openK, ["extX"], false, ⟨1, false⟩⟩ (by decide),
   (c2_no_request_targets_self [] Option.none Option.none plainCtx).2
      [gAO] [("extC", true), ("extD", false), ("self", false)]
      ⟨TaskKind.openK, ["extD"], false, ⟨0, false⟩⟩ (by decide)⟩



/-- Membership through the `Set`-style dedup fold. -/
theorem mem_dedupFold (x : String) :
    ∀ (l : List String) (acc : List String),
    x ∈ l.foldl (fun acc y => if y ∈ acc then acc else acc ++ [y]) acc ↔
      x ∈ acc ∨ x ∈ l := by
  intro l
  induction l with
  | nil => intro acc; simp
  | cons y rest ih =>
    intro acc
    simp only [List.foldl_cons]
    by_cases hy : y ∈ acc
    · rw [if_pos hy]
      rw [ih]
      constructor
      · rintro (hx | hx)
        · exact Or.inl hx
        · exact Or.inr (List.mem_cons_of_mem y hx)
      · rintro (hx | hx)
        · exact Or.inl hx
        · rcases List.mem_cons.mp hx with rfl | hx2
          · exact Or.inl hy
          · exact Or.inr hx2
    · rw [if_neg hy]
      rw [ih]
      simp [List.mem_append, List.mem_cons]
      tauto

/-- `dedupKeepFirst` preserves membership. -/
theorem mem_dedupKeepFirst (x : String) (l : List String) :
    x ∈ dedupKeepFirst l ↔ x ∈ l := by
  unfold dedupKeepFirst
  rw [mem_dedupFold]
  simp

/-- The dedup fold keeps the accumulator duplicate-free. -/
theorem nodup_dedupFold :
    ∀ (l : List String) (acc : List String), acc.Nodup →
    (l.foldl (fun acc y => if y ∈ acc then acc else acc ++ [y]) acc).Nodup := by
  intro l
  induction l with
  | nil => intro acc h; simpa using h
  | cons y rest ih =>
    intro acc h
    simp only [List.foldl_cons]
    by_cases hy : y ∈ acc
    · rw [if_pos hy]; exact ih acc h
    · rw [if_neg hy]
      refine ih _ ?_
      simp [List.nodup_append, h, hy]

/-- `dedupKeepFirst` yields a duplicate-free list. -/
theorem nodup_dedupKeepFirst (l : List String) : (dedupKeepFirst l).Nodup :=
  nodup_dedupFold l [] List.nodup_nil

/-- The dedup fold is the identity on duplicate-free input. -/
theorem dedupFold_eq_self :
    ∀ (l : List String) (acc : List String), (acc ++ l).Nodup →
    l.foldl (fun acc y => if y ∈ acc then acc else acc ++ [y]) acc = acc ++ l := by
  intro l
  induction l with
  | nil => intro acc _; simp
  | cons y rest ih =>
    intro acc h
    have hy : y ∉ acc := by
      intro hmem
      rcases List.nodup_append.mp h with ⟨_, _, hdisj⟩
      exact hdisj hmem (List.mem_cons_self y rest)
    simp only [List.foldl_cons, if_neg hy]
    have h2 : ((acc ++ [y]) ++ rest).Nodup := by
      rw [List.append_assoc]
      simpa using h
    rw [ih _ h2]
    simp

/-- `dedupKeepFirst` is the identity on duplicate-free lists. -/
theorem dedupKeepFirst_eq_self (l : List String) (h : l.Nodup) :
    dedupKeepFirst l = l := by
  unfold dedupKeepFirst
  rw [dedupFold_eq_self l [] (by simpa using h)]
  simp

/-- A `filterMap` that succeeds everywhere is a `map`. -/
theorem filterMap_eq_map_of {α β : Type} (l : List α) (f : α → Option β)
    (g : α → β) (h : ∀ x ∈ l, f x = some (g x)) : l.filterMap f = l.map g := by
  induction l with
  | nil => rfl
  | cons x rest ih =>
    rw [List.filterMap_cons, h x (List.mem_cons_self x rest),
      ih (fun y hy => h y (List.mem_cons_of_mem x hy))]
    rfl

/-- The winner over a single task. -/
theorem pickWinner_single (t : ExecuteTask) (id : String) :
    pickWinner [t] id = if id ∈ t.targetExtensions then some t else Option.none := by
  simp only [pickWinner, List.foldl_cons, List.foldl_nil]

/-- Executing one open task over duplicate-free, currently disabled targets
enables each of them once. -/
theorem executeCalls_single_open (targets : List String) (reload : Bool)
    (p : ExecuteTaskPriority) (installed : List (String × Bool))
    (hnd : targets.Nodup)
    (hdis : ∀ id ∈ targets, getInfo installed id = some false) :
    executeCalls [⟨TaskKind.openK, targets, reload, p⟩] installed =
      targets.map (fun id => StateCall.setEnabled id true) := by
  unfold executeCalls
  simp only [List.foldl_cons, List.foldl_nil, List.nil_append]
  rw [dedupKeepFirst_eq_self targets hnd]
  refine filterMap_eq_map_of targets _ _ ?_
  intro id hid
  rw [pickWinner_single]
  rw [if_pos hid]
  simp only [hdis id hid]

/-- Membership through the group-member collection fold. -/
theorem mem_membersFold (x : String) :
    ∀ (l : List IGroup) (acc : List String),
    x ∈ l.foldl (fun acc g => acc ++ g.extensions) acc ↔
      x ∈ acc ∨ ∃ g ∈ l, x ∈ g.extensions := by
  intro l
  induction l with
  | nil => intro acc; simp
  | cons g rest ih =>
    intro acc
    simp only [List.foldl_cons]
    rw [ih]
    simp [List.mem_append]
    tauto



/-- `alwaysOnTasks` feeds exactly one open request for the eligible members
(group members of always-on groups, deduplicated, excluding the controller
and everything not currently disabled), or nothing when no member remains. -/
theorem alwaysOnTasks_eq (groups : List IGroup) (installed : List (String × Bool))
    (selfId : String) :
    alwaysOnTasks groups installed selfId =
      (if (dedupKeepFirst
            ((groups.filter (fun g => decide (g.alwaysOn = some true))).foldl
              (fun acc g => acc ++ g.extensions) [])).filter
            (fun extId => decide (extId ≠ selfId ∧ getInfo installed extId = some false)) = []
       then []
       else
        [⟨TaskKind.openK,
          (dedupKeepFirst
            ((groups.filter (fun g => decide (g.alwaysOn = some true))).foldl
              (fun acc g => acc ++ g.extensions) [])).filter
            (fun extId => decide (extId ≠ selfId ∧ getInfo installed extId = some false)),
          false, {}⟩]) := by
  simp only [alwaysOnTasks, ExecuteTaskHandler.openTask]
  split_ifs with h1 h2 h3 h4 h5 h6 h7
  · rfl
  · exact absurd (by rw [List.isEmpty_iff.mp h1]; rfl) h2
  · rfl
  · exact absurd (by rw [List.isEmpty_iff.mp h3]; rfl) h4
  · rfl
  · exact absurd (List.isEmpty_iff.mp h5) h6
  · exact absurd h7 (by rw [List.isEmpty_iff] at h5; exact h5)
  · simp



/-- C7: Always-On enforcement issues exactly the enable calls for members of
always-on groups that are not the controller and are currently disabled —
every call is such an enable, every such member gets its call, and when no
member qualifies (all enabled, or only the controller) zero state-change
calls are issued. -/
theorem c7_always_on_enforcement :
    ∀ (groups : List IGroup) (installed : List (String × Bool)) (selfId : String),
    (∀ c ∈ enableAlwaysOnExtensions groups installed selfId,
      ∃ id, c = StateCall.setEnabled id true ∧ id ≠ selfId ∧
        getInfo installed id = some false ∧
        ∃ g ∈ groups, g.alwaysOn = some true ∧ id ∈ g.extensions) ∧
    (∀ g ∈ groups, g.alwaysOn = some true → ∀ id ∈ g.extensions, id ≠ selfId →
      getInfo installed id = some false →
      StateCall.setEnabled id true ∈ enableAlwaysOnExtensions groups installed selfId) ∧
    ((∀ g ∈ groups, g.alwaysOn = some true → ∀ id ∈ g.extensions,
        id = selfId ∨ getInfo installed id ≠ some false) →
      enableAlwaysOnExtensions groups installed selfId = []) := by
  intro groups installed selfId
  set E := (dedupKeepFirst
      ((groups.filter (fun g => decide (g.alwaysOn = some true))).foldl
        (fun acc g => acc ++ g.extensions) [])).filter
      (fun extId => decide (extId ≠ selfId ∧ getInfo installed extId = some false)) with hE
  have hmemE : ∀ id, id ∈ E ↔
      ((∃ g ∈ groups, g.alwaysOn = some true ∧ id ∈ g.extensions) ∧
        id ≠ selfId ∧ getInfo installed id = some false) := by
    intro id
    rw [hE, List.mem_filter, mem_dedupKeepFirst, mem_membersFold]
    constructor
    · rintro ⟨hm, hp⟩
      rcases hm with hfalse | ⟨g, hg, hid⟩
      · simp at hfalse
      · rcases List.mem_filter.mp hg with ⟨hgg, hga⟩
        simp only [decide_eq_true_eq] at hga hp
        exact ⟨⟨g, hgg, hga, hid⟩, hp⟩
    · rintro ⟨⟨g, hg, hga, hid⟩, hp⟩
      refine ⟨Or.inr ⟨g, ?_, hid⟩, by simp [hp.1, hp.2]⟩
      exact List.mem_filter.mpr ⟨hg, by simp [hga]⟩
  have htasks := alwaysOnTasks_eq groups installed selfId
  rw [← hE] at htasks
  by_cases hEnil : E = []
  · have hcalls : enableAlwaysOnExtensions groups installed selfId = [] := by
      unfold enableAlwaysOnExtensions
      rw [htasks, if_pos hEnil]
      simp [executeCalls, dedupKeepFirst]
    rw [hcalls]
    refine ⟨by simp, ?_, fun _ => rfl⟩
    intro g hg hga id hid hne hdis
    have : id ∈ E := (hmemE id).mpr ⟨⟨g, hg, hga, hid⟩, hne, hdis⟩
    rw [hEnil] at this
    simp at this
  · have hEnodup : E.Nodup := by
      rw [hE]
      exact List.Nodup.filter _ (nodup_dedupKeepFirst _)
    have hEdis : ∀ id ∈ E, getInfo installed id = some false :=
      fun id hid => ((hmemE id).mp hid).2.2
    have hcalls : enableAlwaysOnExtensions groups installed selfId =
        E.map (fun id => StateCall.setEnabled id true) := by
      unfold enableAlwaysOnExtensions
      rw [htasks, if_neg hEnil]
      exact executeCalls_single_open E false {} installed hEnodup hEdis
    rw [hcalls]
    refine ⟨?_, ?_, ?_⟩
    · intro c hc
      rcases List.mem_map.mp hc with ⟨id, hidE, rfl⟩
      rcases (hmemE id).mp hidE with ⟨⟨g, hg, hga, hid⟩, hne, hdis⟩
      exact ⟨id, rfl, hne, hdis, g, hg, hga, hid⟩
    · intro g hg hga id hid hne hdis
      exact List.mem_map_of_mem _ ((hmemE id).mpr ⟨⟨g, hg, hga, hid⟩, hne, hdis⟩)
    · intro hall
      exfalso
      rcases List.exists_mem_of_ne_nil E hEnil with ⟨id, hidE⟩
      rcases (hmemE id).mp hidE with ⟨⟨g, hg, hga, hid⟩, hne, hdis⟩
      rcases hall g hg hga id hid with heq | hneq
      · exact hne heq
      · exact hneq hdis

/-- Witness for C7: `extD` (disabled) gets enabled; with every member
enabled (or the controller), zero calls. -/
theorem c7_witness :
    (StateCall.setEnabled "extD" true ∈
      enableAlwaysOnExtensions [gAO] [("extC", true), ("extD", false), ("self", false)] "self") ∧
    enableAlwaysOnExtensions [gAO] [("extC", true), ("extD", true), ("self", false)] "self" = [] :=
  ⟨(c7_always_on_enforcement [gAO] [("extC", true), ("extD", false), ("self", false)] "self").2.1
      gAO (by decide) (by decide) "extD" (by decide) (by decide) (by decide),
   (c7_always_on_enforcement [gAO] [("extC", true), ("extD", true), ("self", false)] "self").2.2
      (by decide)⟩



/-- Reading the installed table after recording a state change. -/
theorem getInfo_setInstalled (st : List (String × Bool)) (id : String) (b : Bool) :
    ∀ x, getInfo (setInstalled st id b) x =
      if x = id then (getInfo st x).map (fun _ => b) else getInfo st x := by
  induction st with
  | nil => intro x; simp [setInstalled, getInfo]
  | cons e rest ih =>
    intro x
    obtain ⟨k, v⟩ := e
    by_cases hk : k = id <;> by_cases hx : k = x <;>
      (simp_all [setInstalled, getInfo, List.find?]; try (split_ifs <;> simp_all))



/-- Invariant of the member loop of Mutual-Exclusion enforcement: the calls
stay sound and duplicate-free, only grow, and every originally enabled
member of the processed list ends up disabled exactly once. -/
theorem mutex_inner_fold (groups : List IGroup) (original : List (String × Bool))
    (selfId enabledId : String) :
    ∀ (l : List String) (acc : List StateCall × List (String × Bool)),
    MutexAccOK groups original selfId enabledId acc →
    (∀ id ∈ l, id ≠ enabledId ∧ id ≠ selfId ∧
      ∃ g ∈ groups, g.isMutex = some true ∧ enabledId ∈ g.extensions ∧
        id ∈ g.extensions) →
    MutexAccOK groups original selfId enabledId
      (l.foldl
        (fun acc extId =>
          match getInfo acc.2 extId with
          | some true =>
            (acc.1 ++ [StateCall.setEnabled extId false], setInstalled acc.2 extId false)
          | _ => acc) acc) ∧
    (∃ suffix,
      (l.foldl
        (fun acc extId =>
          match getInfo acc.2 extId with
          | some true =>
            (acc.1 ++ [StateCall.setEnabled extId false], setInstalled acc.2 extId false)
          | _ => acc) acc).1 = acc.1 ++ suffix) ∧
    (∀ id ∈ l, getInfo original id = some true →
      StateCall.setEnabled id false ∈
        (l.foldl
          (fun acc extId =>
            match getInfo acc.2 extId with
            | some true =>
              (acc.1 ++ [StateCall.setEnabled extId false], setInstalled acc.2 extId false)
            | _ => acc) acc).1) := by
  intro l
  induction l with
  | nil =>
    intro acc hacc _
    exact ⟨hacc, ⟨[], by simp⟩, by simp⟩
  | cons id rest ih =>
    intro acc hacc hl
    obtain ⟨hid1, hid2, hgrp⟩ := hl id (List.mem_cons_self id rest)
    have hrest : ∀ x ∈ rest, x ≠ enabledId ∧ x ≠ selfId ∧
        ∃ g ∈ groups, g.isMutex = some true ∧ enabledId ∈ g.extensions ∧
          x ∈ g.extensions :=
      fun x hx => hl x (List.mem_cons_of_mem id hx)
    obtain ⟨hcalls, hnodup, hst⟩ := hacc
    simp only [List.foldl_cons]
    cases hgi : getInfo acc.2 id with
    | none =>
      have hninmap : id ∈ acc.1.map callId → False := by
        intro hin
        have := hst id
        rw [if_pos hin] at this
        rw [hgi] at this
        exact Option.noConfusion this
      -- acc unchanged
      rcases ih acc ⟨hcalls, hnodup, hst⟩ hrest with ⟨hok, hsuf, hcompl⟩
      refine ⟨hok, hsuf, ?_⟩
      intro x hx horig
      rcases List.mem_cons.mp hx with rfl | hxr
      · exfalso
        have := hst x
        rw [if_neg (fun hin => hninmap hin)] at this
        rw [hgi] at this
        rw [horig] at this
        exact Option.noConfusion this
      · exact hcompl x hxr horig
    | some bv =>
      cases bv with
      | false =>
        -- already disabled in the threaded state: either called before, or
        -- originally disabled
        rcases ih acc ⟨hcalls, hnodup, hst⟩ hrest with ⟨hok, ⟨suf, hsuf⟩, hcompl⟩
        refine ⟨hok, ⟨suf, hsuf⟩, ?_⟩
        intro x hx horig
        rcases List.mem_cons.mp hx with hxid | hxr
        · subst hxid
          by_cases hin : x ∈ acc.1.map callId
          · rcases List.mem_map.mp hin with ⟨c, hc, hcid⟩
            rcases hcalls c hc with ⟨y, hceq, _, _, _, _⟩
            subst hceq
            have hy : y = x := hcid
            subst hy
            rw [hsuf]
            exact List.mem_append_left _ hc
          · exfalso
            have hcoh := hst x
            rw [if_neg hin, horig] at hcoh
            rw [hgi] at hcoh
            exact Bool.noConfusion (Option.some.inj hcoh)
        · exact hcompl x hxr horig
      | true =>
        -- issue the disable and thread the state
        have hninmap : id ∉ acc.1.map callId := by
          intro hin
          have := hst id
          rw [if_pos hin] at this
          rw [hgi] at this
          exact Bool.noConfusion (Option.some.inj this)
        have horig : getInfo original id = some true := by
          have := hst id
          rw [if_neg hninmap] at this
          rw [hgi] at this
          exact this.symm
        set acc2 : List StateCall × List (String × Bool) :=
          (acc.1 ++ [StateCall.setEnabled id false], setInstalled acc.2 id false)
          with hacc2
        have hok2 : MutexAccOK groups original selfId enabledId acc2 := by
          refine ⟨?_, ?_, ?_⟩
          · intro c hc
            rcases List.mem_append.mp hc with hc1 | hc2
            · exact hcalls c hc1
            · simp only [List.mem_singleton] at hc2
              subst hc2
              exact ⟨id, rfl, hid2, hid1, horig, hgrp⟩
          · rw [hacc2]
            simp only [List.map_append, List.map_cons, List.map_nil]
            rw [List.nodup_append]
            refine ⟨hnodup, List.nodup_singleton _, ?_⟩
            intro a ha hb
            simp only [callId, List.mem_singleton] at hb
            subst hb
            exact hninmap ha
          · intro x
            rw [hacc2]
            simp only []
            rw [getInfo_setInstalled]
            by_cases hx : x = id
            · subst hx
              rw [if_pos rfl, hgi]
              have hin : x ∈ (acc.1 ++ [StateCall.setEnabled x false]).map callId := by
                simp [callId]
              rw [if_pos hin]
              rfl
            · rw [if_neg hx, hst x]
              have hiff : (x ∈ (acc.1 ++ [StateCall.setEnabled id false]).map callId) ↔
                  x ∈ acc.1.map callId := by
                simp only [List.map_append, List.mem_append, List.map_cons,
                  List.map_nil, List.mem_singleton, callId]
                constructor
                · rintro (h | h)
                  · exact h
                  · exact absurd h hx
                · exact Or.inl
              by_cases hin : x ∈ acc.1.map callId
              · rw [if_pos hin, if_pos (hiff.mpr hin)]
              · rw [if_neg hin, if_neg (fun h => hin (hiff.mp h))]
        rcases ih acc2 hok2 hrest with ⟨hok, ⟨suf, hsuf⟩, hcompl⟩
        refine ⟨hok, ?_, ?_⟩
        · refine ⟨[StateCall.setEnabled id false] ++ suf, ?_⟩
          rw [hsuf, hacc2]
          simp [List.append_assoc]
        · intro x hx horigx
          rcases List.mem_cons.mp hx with rfl | hxr
          · rw [hsuf]
            refine List.mem_append_left _ ?_
            rw [hacc2]
            simp
          · exact hcompl x hxr horigx



/-- Invariant of the group loop of Mutual-Exclusion enforcement: over any
list of mutex groups, the calls stay sound and duplicate-free, only grow,
and every eligible member of a processed group containing the enabled id
has its disable call in the result. -/
theorem mutex_outer_fold (groups : List IGroup) (original : List (String × Bool))
    (selfId enabledId : String) :
    ∀ (L : List IGroup) (acc : List StateCall × List (String × Bool)),
    MutexAccOK groups original selfId enabledId acc →
    (∀ g ∈ L, g ∈ groups ∧ g.isMutex = some true) →
    MutexAccOK groups original selfId enabledId
      (L.foldl
        (fun acc g =>
          if g.extensions = [] then acc
          else if enabledId ∈ g.extensions then
            disableOthers g.extensions enabledId selfId acc
          else acc) acc) ∧
    (∃ suffix,
      (L.foldl
        (fun acc g =>
          if g.extensions = [] then acc
          else if enabledId ∈ g.extensions then
            disableOthers g.extensions enabledId selfId acc
          else acc) acc).1 = acc.1 ++ suffix) ∧
    (∀ g ∈ L, enabledId ∈ g.extensions → ∀ id ∈ g.extensions, id ≠ enabledId →
      id ≠ selfId → getInfo original id = some true →
      StateCall.setEnabled id false ∈
        (L.foldl
          (fun acc g =>
            if g.extensions = [] then acc
            else if enabledId ∈ g.extensions then
              disableOthers g.extensions enabledId selfId acc
            else acc) acc).1) := by
  intro L
  induction L with
  | nil =>
    intro acc hacc _
    exact ⟨hacc, ⟨[], by simp⟩, by simp⟩
  | cons g L ih =>
    intro acc hacc hL
    obtain ⟨hgin, hgmx⟩ := hL g (List.mem_cons_self g L)
    have hLrest : ∀ x ∈ L, x ∈ groups ∧ x.isMutex = some true :=
      fun x hx => hL x (List.mem_cons_of_mem g hx)
    by_cases hnil : g.extensions = []
    · simp only [List.foldl_cons, if_pos hnil]
      rcases ih acc hacc hLrest with ⟨hok, hsuf, hcompl⟩
      refine ⟨hok, hsuf, ?_⟩
      intro g2 hg2 henb id hid hne1 hne2 horig
      rcases List.mem_cons.mp hg2 with hgg | hg2r
      · exfalso
        subst hgg
        rw [hnil] at hid
        simp at hid
      · exact hcompl g2 hg2r henb id hid hne1 hne2 horig
    · by_cases hmem : enabledId ∈ g.extensions
      · simp only [List.foldl_cons, if_neg hnil, if_pos hmem]
        have hfilt : ∀ id ∈ g.extensions.filter
            (fun id => decide (id ≠ enabledId ∧ id ≠ selfId)),
            id ≠ enabledId ∧ id ≠ selfId ∧
            ∃ g2 ∈ groups, g2.isMutex = some true ∧ enabledId ∈ g2.extensions ∧
              id ∈ g2.extensions := by
          intro id hidf
          rcases List.mem_filter.mp hidf with ⟨hidg, hp⟩
          simp only [decide_eq_true_eq] at hp
          exact ⟨hp.1, hp.2, g, hgin, hgmx, hmem, hidg⟩
        have hinner := mutex_inner_fold groups original selfId enabledId
          (g.extensions.filter (fun id => decide (id ≠ enabledId ∧ id ≠ selfId)))
          acc hacc hfilt
        have hdis : disableOthers g.extensions enabledId selfId acc =
            (g.extensions.filter
              (fun id => decide (id ≠ enabledId ∧ id ≠ selfId))).foldl
              (fun acc extId =>
                match getInfo acc.2 extId with
                | some true =>
                  (acc.1 ++ [StateCall.setEnabled extId false],
                   setInstalled acc.2 extId false)
                | _ => acc) acc := rfl
        rw [← hdis] at hinner
        rcases hinner with ⟨hok2, ⟨suf1, hsuf1⟩, hcompl1⟩
        rcases ih (disableOthers g.extensions enabledId selfId acc) hok2 hLrest with
          ⟨hok, ⟨suf2, hsuf2⟩, hcompl⟩
        refine ⟨hok, ⟨suf1 ++ suf2, by rw [hsuf2, hsuf1, List.append_assoc]⟩, ?_⟩
        intro g2 hg2 henb id hid hne1 hne2 horig
        rcases List.mem_cons.mp hg2 with hgg | hg2r
        · subst hgg
          have hidf : id ∈ g2.extensions.filter
              (fun id => decide (id ≠ enabledId ∧ id ≠ selfId)) :=
            List.mem_filter.mpr ⟨hid, by simp [hne1, hne2]⟩
          have hcall := hcompl1 id hidf horig
          rw [hsuf2]
          exact List.mem_append_left _ hcall
        · exact hcompl g2 hg2r henb id hid hne1 hne2 horig
      · simp only [List.foldl_cons, if_neg hnil, if_neg hmem]
        rcases ih acc hacc hLrest with ⟨hok, hsuf, hcompl⟩
        refine ⟨hok, hsuf, ?_⟩
        intro g2 hg2 henb id hid hne1 hne2 horig
        rcases List.mem_cons.mp hg2 with hgg | hg2r
        · exfalso; subst hgg; exact hmem henb
        · exact hcompl g2 hg2r henb id hid hne1 hne2 horig

/-- C6: on an enabled notification for a non-controller id, Mutual-Exclusion
enforcement disables every other currently enabled member of each mutex
group containing the id (excluding the controller), each exactly once (the
call list is duplicate-free even across overlapping groups, because the
threaded state is re-checked), and it never touches an id that is already
disabled or missing — enforcement is idempotent. -/
theorem c6_mutex_exclusion :
    ∀ (groups : List IGroup) (installed : List (String × Bool))
      (selfId enabledId : String),
    enabledId ≠ selfId →
    (∀ c ∈ handleExtensionEnabled groups installed selfId enabledId,
      MutexCallOK groups installed selfId enabledId c) ∧
    ((handleExtensionEnabled groups installed selfId enabledId).map callId).Nodup ∧
    (∀ g ∈ groups, g.isMutex = some true → enabledId ∈ g.extensions →
      ∀ id ∈ g.extensions, id ≠ enabledId → id ≠ selfId →
      getInfo installed id = some true →
      StateCall.setEnabled id false ∈
        handleExtensionEnabled groups installed selfId enabledId) ∧
    (∀ id, getInfo installed id ≠ some true → ∀ b,
      StateCall.setEnabled id b ∉
        handleExtensionEnabled groups installed selfId enabledId) := by
  intro groups installed selfId enabledId hne
  have hself : ¬(enabledId = selfId) := hne
  unfold handleExtensionEnabled
  rw [if_neg hself]
  by_cases hempty : (groups.filter (fun g => decide (g.isMutex = some true))).isEmpty = true
  · rw [if_pos hempty]
    refine ⟨by simp, by simp, ?_, by simp⟩
    intro g hg hmx _ id _ _ _ _
    exfalso
    have : g ∈ groups.filter (fun g => decide (g.isMutex = some true)) :=
      List.mem_filter.mpr ⟨hg, by simp [hmx]⟩
    rw [List.isEmpty_iff.mp hempty] at this
    simp at this
  · rw [if_neg hempty]
    have hacc0 : MutexAccOK groups installed selfId enabledId ([], installed) := by
      refine ⟨by simp, by simp, ?_⟩
      intro x
      simp
    have hL : ∀ g ∈ groups.filter (fun g => decide (g.isMutex = some true)),
        g ∈ groups ∧ g.isMutex = some true := by
      intro g hg
      rcases List.mem_filter.mp hg with ⟨h1, h2⟩
      simp only [decide_eq_true_eq] at h2
      exact ⟨h1, h2⟩
    rcases mutex_outer_fold groups installed selfId enabledId
      (groups.filter (fun g => decide (g.isMutex = some true)))
      ([], installed) hacc0 hL with ⟨⟨hsound, hnodup, _⟩, _, hcompl⟩
    refine ⟨hsound, hnodup, ?_, ?_⟩
    · intro g hg hmx henb id hid hne1 hne2 horig
      exact hcompl g (List.mem_filter.mpr ⟨hg, by simp [hmx]⟩) henb id hid hne1 hne2 horig
    · intro id hdis b hmemb
      rcases hsound _ hmemb with ⟨y, hceq, _, _, horig, _⟩
      have hy : y = id := (StateCall.setEnabled.injEq _ _ _ _).mp hceq.symm |>.1
      subst hy
      exact hdis horig



/-- Witness for C6: enabling `extA` disables the enabled `extB` of the mutex
group; with `extB` already disabled no call is issued for it. -/
theorem c6_witness :
    StateCall.setEnabled "extB" false ∈
      handleExtensionEnabled [gMX] [("extA", true), ("extB", true), ("self", true)]
        "self" "extA" ∧
    StateCall.setEnabled "extB" false ∉
      handleExtensionEnabled [gMX] [("extA", true), ("extB", false), ("self", true)]
        "self" "extA" :=
  ⟨(c6_mutex_exclusion [gMX] [("extA", true), ("extB", true), ("self", true)]
      "self" "extA" (by decide)).2.2.1 gMX (by decide) (by decide) (by decide)
      "extB" (by decide) (by decide) (by decide) (by decide),
   (c6_mutex_exclusion [gMX] [("extA", true), ("extB", false), ("self", true)]
      "self" "extA" (by decide)).2.2.2 "extB" (by decide) false⟩

/-- The conflict-key order is reflexive. -/
theorem keyLe_refl (a : Int × Nat) : keyLe a a := by
  unfold keyLe
  omega

/-- The conflict-key order is transitive. -/
theorem keyLe_trans {a b c : Int × Nat} (h1 : keyLe a b) (h2 : keyLe b c) :
    keyLe a c := by
  unfold keyLe at *
  omega

/-- The conflict-key order is total. -/
theorem keyLe_total (a b : Int × Nat) : keyLe a b ∨ keyLe b a := by
  unfold keyLe
  omega

/-- A `find?` with a stronger predicate returns the same element when that
element still satisfies the stronger predicate. -/
theorem find?_stronger {α : Type} (p q : α → Bool) (b : α)
    (himp : ∀ x, p x = true → q x = true) :
    ∀ l : List α, l.find? q = some b → p b = true → l.find? p = some b := by
  intro l
  induction l with
  | nil => intro h; simp at h
  | cons x rest ih =>
    intro hq hp
    cases hpx : p x with
    | true =>
      have hqx : q x = true := himp x hpx
      rw [List.find?_cons_of_pos _ hqx] at hq
      have hbx : x = b := Option.some.inj hq
      rw [List.find?_cons_of_pos _ hpx, hbx]
    | false =>
      cases hqx : q x with
      | true =>
        rw [List.find?_cons_of_pos _ hqx] at hq
        have hbx : x = b := Option.some.inj hq
        rw [← hbx] at hp
        rw [hpx] at hp
        exact Bool.noConfusion hp
      | false =>
        rw [List.find?_cons_of_neg _ (by simp [hqx])] at hq
        rw [List.find?_cons_of_neg _ (by simp [hpx])]
        exact ih hq hp

/-- Unfolding the winner scan over an appended task. -/
theorem pickWinner_append (l : List ExecuteTask) (t : ExecuteTask) (id : String) :
    pickWinner (l ++ [t]) id =
      if id ∈ t.targetExtensions then
        match pickWinner l id with
        | Option.none => some t
        | some best => if keyLe (keyOf best) (keyOf t) then some t else some best
      else pickWinner l id := by
  unfold pickWinner
  rw [List.foldl_append]
  rfl

/-- The scan yields no winner exactly when no task mentions the id. -/
theorem pickWinner_none_iff (id : String) :
    ∀ l : List ExecuteTask,
    pickWinner l id = Option.none ↔ ∀ u ∈ l, id ∉ u.targetExtensions := by
  intro l
  induction l using List.reverseRecOn with
  | nil => simp [pickWinner]
  | append_singleton l t ih =>
    rw [pickWinner_append]
    by_cases hmem : id ∈ t.targetExtensions
    · rw [if_pos hmem]
      constructor
      · intro h
        cases hpw : pickWinner l id with
        | none =>
          rw [hpw] at h
          exact Option.noConfusion h
        | some best =>
          rw [hpw] at h
          have h2 : (if keyLe (keyOf best) (keyOf t) then some t else some best) =
              (Option.none : Option ExecuteTask) := h
          split_ifs at h2
      · intro h
        exfalso
        exact h t (by simp) hmem
    · rw [if_neg hmem]
      rw [ih]
      constructor
      · intro h u hu
        rcases List.mem_append.mp hu with hul | hut
        · exact h u hul
        · simp only [List.mem_singleton] at hut
          subst hut
          exact hmem
      · intro h u hu
        exact h u (List.mem_append_left _ hu)

/-- The scanned winner mentions the id and its key dominates every
competing task. -/
theorem pickWinner_sound (id : String) :
    ∀ (l : List ExecuteTask) (b : ExecuteTask),
    pickWinner l id = some b →
      b ∈ l ∧ id ∈ b.targetExtensions ∧
        ∀ u ∈ l, id ∈ u.targetExtensions → keyLe (keyOf u) (keyOf b) := by
  intro l
  induction l using List.reverseRecOn with
  | nil => intro b h; simp [pickWinner] at h
  | append_singleton l t ih =>
    intro b h
    rw [pickWinner_append] at h
    by_cases hmem : id ∈ t.targetExtensions
    · rw [if_pos hmem] at h
      cases hpw : pickWinner l id with
      | none =>
        rw [hpw] at h
        have h2 : some t = some b := h
        have hbt : t = b := Option.some.inj h2
        subst hbt
        refine ⟨by simp, hmem, ?_⟩
        intro u hu hidu
        rcases List.mem_append.mp hu with hul | hut
        · exfalso
          exact (pickWinner_none_iff id l).mp hpw u hul hidu
        · simp only [List.mem_singleton] at hut
          subst hut
          exact keyLe_refl _
      | some best =>
        rw [hpw] at h
        rcases ih best hpw with ⟨hbl, hbid, hbmax⟩
        have h2 : (if keyLe (keyOf best) (keyOf t) then some t else some best) =
            some b := h
        split_ifs at h2 with hk
        · have hbt : t = b := Option.some.inj h2
          subst hbt
          refine ⟨by simp, hmem, ?_⟩
          intro u hu hidu
          rcases List.mem_append.mp hu with hul | hut
          · exact keyLe_trans (hbmax u hul hidu) hk
          · simp only [List.mem_singleton] at hut
            subst hut
            exact keyLe_refl _
        · have hbt : best = b := Option.some.inj h2
          subst hbt
          refine ⟨List.mem_append_left _ hbl, hbid, ?_⟩
          intro u hu hidu
          rcases List.mem_append.mp hu with hul | hut
          · exact hbmax u hul hidu
          · simp only [List.mem_singleton] at hut
            subst hut
            rcases keyLe_total (keyOf u) (keyOf best) with hle | hle
            · exact hle
            · exact absurd hle hk
    · rw [if_neg hmem] at h
      rcases ih b h with ⟨hbl, hbid, hbmax⟩
      refine ⟨List.mem_append_left _ hbl, hbid, ?_⟩
      intro u hu hidu
      rcases List.mem_append.mp hu with hul | hut
      · exact hbmax u hul hidu
      · simp only [List.mem_singleton] at hut
        subst hut
        exact absurd hidu hmem



/-- The operational winner scan of `execute()` equals the policy as the
specification words it: the last-appended task among those with the maximal
`(level, !isFallback)` key. -/
theorem pickWinner_eq_lastMaxWinner (id : String) :
    ∀ l : List ExecuteTask, pickWinner l id = lastMaxWinner l id := by
  intro l
  induction l using List.reverseRecOn with
  | nil => simp [pickWinner, lastMaxWinner]
  | append_singleton l t ih =>
    rw [pickWinner_append]
    simp only [lastMaxWinner, List.filter_append, List.filter_cons, List.filter_nil]
    by_cases hmem : id ∈ t.targetExtensions
    · rw [if_pos hmem]
      simp only [if_pos (decide_eq_true hmem)]
      rw [List.reverse_append]
      simp only [List.reverse_cons, List.reverse_nil, List.nil_append,
        List.cons_append, List.nil_append]
      cases hpw : pickWinner l id with
      | none =>
        have hfl : l.filter (fun u => decide (id ∈ u.targetExtensions)) = [] := by
          rw [List.filter_eq_nil_iff]
          intro u hu
          simp only [decide_eq_true_eq]
          exact (pickWinner_none_iff id l).mp hpw u hu
        rw [hfl]
        simp [keyLe_refl]
      | some b =>
        rcases pickWinner_sound id l b hpw with ⟨hbl, hbid, hbmax⟩
        have hbfl : b ∈ l.filter (fun u => decide (id ∈ u.targetExtensions)) :=
          List.mem_filter.mpr ⟨hbl, decide_eq_true hbid⟩
        have hmax_fl : ∀ u ∈ l.filter (fun u => decide (id ∈ u.targetExtensions)),
            keyLe (keyOf u) (keyOf b) := by
          intro u hu
          rcases List.mem_filter.mp hu with ⟨hul, hup⟩
          exact hbmax u hul (of_decide_eq_true hup)
        show (if keyLe (keyOf b) (keyOf t) then some t else some b) = _
        by_cases hk : keyLe (keyOf b) (keyOf t)
        · rw [if_pos hk]
          have hcond : ((l.filter (fun u => decide (id ∈ u.targetExtensions)) ++ [t]).all
              (fun u => decide (keyLe (keyOf u) (keyOf t)))) = true := by
            rw [List.all_eq_true]
            intro u hu
            rcases List.mem_append.mp hu with hul | hut
            · exact decide_eq_true (keyLe_trans (hmax_fl u hul) hk)
            · simp only [List.mem_singleton] at hut
              subst hut
              exact decide_eq_true (keyLe_refl _)
          symm
          exact List.find?_cons_of_pos _ hcond
        · rw [if_neg hk]
          have hcondf : ((l.filter (fun u => decide (id ∈ u.targetExtensions)) ++ [t]).all
              (fun u => decide (keyLe (keyOf u) (keyOf t)))) = false := by
            rw [List.all_eq_false]
            refine ⟨b, List.mem_append_left _ hbfl, ?_⟩
            simp only [decide_eq_true_eq]
            exact hk
          have himp : ∀ x : ExecuteTask,
              ((l.filter (fun u => decide (id ∈ u.targetExtensions)) ++ [t]).all
                (fun u => decide (keyLe (keyOf u) (keyOf x)))) = true →
              ((l.filter (fun u => decide (id ∈ u.targetExtensions))).all
                (fun u => decide (keyLe (keyOf u) (keyOf x)))) = true := by
            intro x hx
            rw [List.all_append] at hx
            exact (Bool.and_eq_true_iff.mp hx).1
          have hq : ((l.filter (fun u => decide (id ∈ u.targetExtensions))).reverse.find?
              (fun u2 => (l.filter (fun u => decide (id ∈ u.targetExtensions))).all
                (fun u => decide (keyLe (keyOf u) (keyOf u2))))) = some b := by
            have := ih
            rw [hpw] at this
            simp only [lastMaxWinner] at this
            exact this.symm
          have hpb : ((l.filter (fun u => decide (id ∈ u.targetExtensions)) ++ [t]).all
              (fun u => decide (keyLe (keyOf u) (keyOf b)))) = true := by
            rw [List.all_append]
            rw [Bool.and_eq_true_iff]
            constructor
            · rw [List.all_eq_true]
              intro u hu
              exact decide_eq_true (hmax_fl u hu)
            · simp only [List.all_cons, List.all_nil, Bool.and_true]
              rcases keyLe_total (keyOf t) (keyOf b) with hle | hle
              · exact decide_eq_true hle
              · exact absurd hle hk
          symm
          refine Eq.trans (List.find?_cons_of_neg _ (by simp [hcondf])) ?_
          exact find?_stronger _ _ b himp _ hq hpb
    · rw [if_neg hmem]
      simp only [if_neg (by simpa using hmem : ¬(decide (id ∈ t.targetExtensions) = true))]
      rw [List.append_nil]
      rw [ih]
      simp only [lastMaxWinner]



/-- C3: conflict resolution at execute time: the winner per id is the task
with the highest `(level, !isFallback)` key, ties resolved last-write-wins
(`pickWinner` equals `lastMaxWinner`); concretely, of two equal-priority
rules both targeting `extX`, the later-evaluated rule `tieB` decides the
outcome (its open wins and the round enables `extX`), and a matched open at
level 5 beats the later fallback close at the same level. -/
theorem c3_conflict_resolution :
    (∀ (tasks : List ExecuteTask) (id : String),
      pickWinner tasks id = lastMaxWinner tasks id) ∧
    (pickWinner (roundTasks [tieA, tieB] Option.none Option.none plainCtx) "extX").map
        (fun t => t.kind) = some TaskKind.openK ∧
    roundCalls [tieA, tieB] Option.none Option.none plainCtx [("extX", false)] =
      [StateCall.setEnabled "extX" true] ∧
    (pickWinner (roundTasks [fbOpen, fbRule] Option.none Option.none plainCtx) "extY").map
        (fun t => t.kind) = some TaskKind.openK :=
  ⟨fun tasks id => pickWinner_eq_lastMaxWinner id tasks, by decide, by decide, by decide⟩

end AEM
